import Mathlib

/-!
# TruEstate retail-transactions dashboard: filter request encoding and decoding

A shallow embedding of the dashboard's URL-parameter state handling
(`frontend/src/App.jsx`), the filter panel, search bar and table helpers
(`frontend/src/components`), and the keyword search query of
`backend/check-setup.js`, together with theorems about them. The query layer
of the backend, which the sources do not contain, is modelled from the
specification where a statement is about it.

JavaScript strings are modelled by `String`, the numbers that occur (the
results of `parseInt` and integer literals) by the integer-valued doubles and
the two infinities, with a separate `NaN`, and a `URLSearchParams` object by
its ordered list of name/value entries.
-/

namespace TruEstate

/-! ## JavaScript values -/

/-- A JavaScript number other than `NaN`, as far as the dashboard meets them:
an integer (as a double holds it) or one of the two infinities. -/
inductive JSNumber where
  | finite (n : Int)
  | infinite (negative : Bool)
  deriving DecidableEq, Repr

instance (n : Nat) : OfNat JSNumber n := ⟨.finite n⟩

/-- The sign change `-x`. -/
def JSNumber.neg : JSNumber → JSNumber
  | .finite n => .finite (-n)
  | .infinite negative => .infinite (!negative)

instance : Neg JSNumber := ⟨JSNumber.neg⟩

/-- The comparison `a <= b`. -/
def JSNumber.le : JSNumber → JSNumber → Bool
  | .finite a, .finite b => decide (a ≤ b)
  | .finite _, .infinite negative => !negative
  | .infinite negative, .finite _ => negative
  | .infinite a, .infinite b => a || !b

/-- The comparison `a < b`. -/
def JSNumber.lt (a b : JSNumber) : Bool := a.le b && a != b

instance : LE JSNumber := ⟨fun a b => a.le b = true⟩

instance : LT JSNumber := ⟨fun a b => a.lt b = true⟩

instance (a b : JSNumber) : Decidable (a ≤ b) :=
  inferInstanceAs (Decidable (a.le b = true))

instance (a b : JSNumber) : Decidable (a < b) :=
  inferInstanceAs (Decidable (a.lt b = true))

/-- String conversion of a number (integers below 10^21 in magnitude print as
their decimal digits). -/
def JSNumber.toStr : JSNumber → String
  | .finite n => toString n
  | .infinite false => "Infinity"
  | .infinite true => "-Infinity"

/-- Scalar JavaScript values that reach the dashboard's handlers. -/
inductive JSAtom where
  | undefined
  | null
  | bool (b : Bool)
  | nan
  | num (n : JSNumber)
  | str (s : String)
  deriving DecidableEq, Repr

/-- A JavaScript value: a scalar or an array of scalars. -/
inductive JSVal where
  | atom (a : JSAtom)
  | arr (xs : List JSAtom)
  deriving DecidableEq, Repr

/-- JavaScript truthiness of a scalar: `undefined`, `null`, `false`, `NaN`,
`0` and `''` are falsy. -/
def JSAtom.truthy : JSAtom → Bool
  | .undefined => false
  | .null => false
  | .bool b => b
  | .nan => false
  | .num n => n != 0
  | .str s => s != ""

/-- JavaScript truthiness: every array (the empty one included) is truthy. -/
def JSVal.truthy : JSVal → Bool
  | .atom a => a.truthy
  | .arr _ => true

/-- The JavaScript operator `a || b`. -/
def JSVal.or (a b : JSVal) : JSVal := if a.truthy then a else b

/-- String conversion of a scalar, as `URLSearchParams.append` and
`URLSearchParams.set` apply it to their value argument. -/
def JSAtom.toStr : JSAtom → String
  | .undefined => "undefined"
  | .null => "null"
  | .bool true => "true"
  | .bool false => "false"
  | .nan => "NaN"
  | .num n => n.toStr
  | .str s => s

/-- The test `v !== null && v !== undefined && v !== ''` of `updateParams`. -/
def JSAtom.isPresent : JSAtom → Bool
  | .null => false
  | .undefined => false
  | .str s => s != ""
  | _ => true

/-- A plain JavaScript object: its own properties in `Object.entries` order. -/
abbrev JSObj := List (String × JSVal)

/-- Property read `o.k` (or `o[k]`): `undefined` when the property is missing. -/
def JSObj.get (o : JSObj) (k : String) : JSVal :=
  match o.find? (fun e => e.1 == k) with
  | some e => e.2
  | none => .atom .undefined

/-- The operator `k in o`. -/
def JSObj.hasKey (o : JSObj) (k : String) : Bool := o.any (fun e => e.1 == k)

/-- The property names of an object. -/
def JSObj.keys (o : JSObj) : List String := o.map Prod.fst

/-! ## URLSearchParams -/

/-- The entry list of a `URLSearchParams` object. -/
abbrev URLSearchParams := List (String × String)

namespace URLSearchParams

/-- Method `get(name)`: the value of the first entry named `name`, or `null`
(`none`). -/
def get (p : URLSearchParams) (name : String) : Option String :=
  (p.find? (fun e => e.1 == name)).map Prod.snd

/-- Method `getAll(name)`: the values of all entries named `name`, in order. -/
def getAll (p : URLSearchParams) (name : String) : List String :=
  (p.filter (fun e => e.1 == name)).map Prod.snd

/-- Method `delete(name)`: drop every entry named `name`. -/
def delete (p : URLSearchParams) (name : String) : URLSearchParams :=
  p.filter (fun e => e.1 != name)

/-- Method `append(name, value)`: add one entry at the end. -/
def append (p : URLSearchParams) (name value : String) : URLSearchParams :=
  p ++ [(name, value)]

/-- Overwrite the first entry named `name` and drop the later ones. -/
def setFirst (name value : String) : URLSearchParams → URLSearchParams
  | [] => []
  | e :: rest =>
    if e.1 == name then (name, value) :: delete rest name
    else e :: setFirst name value rest

/-- Method `set(name, value)`: when an entry named `name` exists, the first one
gets the value and the others are removed; otherwise the entry is appended. -/
def set (p : URLSearchParams) (name value : String) : URLSearchParams :=
  if p.any (fun e => e.1 == name) then setFirst name value p
  else append p name value

end URLSearchParams

/-! ## parseInt -/

/-- White space and line terminators skipped by `parseInt` (the
`StrWhiteSpaceChar` production). -/
def isStrWhiteSpaceChar (c : Char) : Bool :=
  let n := c.toNat
  n == 0x9 || n == 0xA || n == 0xB || n == 0xC || n == 0xD || n == 0x20 ||
  n == 0xA0 || n == 0x1680 || (0x2000 ≤ n && n ≤ 0x200A) || n == 0x2028 ||
  n == 0x2029 || n == 0x202F || n == 0x205F || n == 0x3000 || n == 0xFEFF

/-- The value of a character as a digit, letters counting from ten. -/
def digitValue (c : Char) : Option Nat :=
  let n := c.toNat
  if 48 ≤ n && n ≤ 57 then some (n - 48)
  else if 97 ≤ n && n ≤ 122 then some (n - 97 + 10)
  else if 65 ≤ n && n ≤ 90 then some (n - 65 + 10)
  else none

/-- Whether a character is a digit of the given radix. -/
def isRadixDigit (radix : Nat) (c : Char) : Bool :=
  match digitValue c with
  | some d => d < radix
  | none => false

/-- The number a digit sequence denotes in the given radix. -/
def digitsValue (radix : Nat) (ds : List Char) : Nat :=
  ds.foldl (fun acc c => acc * radix + (digitValue c).getD 0) 0

/-- Strip an optional sign: the flag says whether it was a minus. -/
def stripSign : List Char → Bool × List Char
  | '-' :: r => (true, r)
  | '+' :: r => (false, r)
  | s => (false, s)

/-- Choose the radix: sixteen after a leading `0x` or `0X`, ten otherwise. -/
def stripRadix : List Char → Nat × List Char
  | '0' :: 'x' :: r => (16, r)
  | '0' :: 'X' :: r => (16, r)
  | s => (10, s)

/-- The number of binary digits of `n`, by halving at most `fuel` times. -/
def bitLengthAux : Nat → Nat → Nat
  | 0, _ => 0
  | fuel + 1, n => if n = 0 then 0 else bitLengthAux fuel (n / 2) + 1

/-- The number of binary digits of `n`. -/
def bitLength (n : Nat) : Nat := bitLengthAux n n

/-- The double nearest to a natural number, ties to the even significand of
53 binary digits; `none` when the result has more than 1024 binary digits,
beyond the largest double, that is `Infinity`. -/
def roundToDouble (n : Nat) : Option Nat :=
  if bitLength n ≤ 53 then some n
  else
    let shift := bitLength n - 53
    let q := n / 2 ^ shift
    let rest := n % 2 ^ shift
    let half := 2 ^ (shift - 1)
    let rounded := if half < rest || (rest == half && q % 2 == 1) then q + 1 else q
    if 1024 < bitLength (rounded * 2 ^ shift) then none else some (rounded * 2 ^ shift)

/-- The global function `parseInt(string)` called with one argument: `none` is
`NaN`. The value of the digits is rounded to the nearest double, as engines
do (the standard leaves digits beyond the twentieth to the implementation),
and is `Infinity` beyond the largest double. (A result of `-0` is modelled by
`0`; both are falsy.) -/
def parseInt (s : String) : Option JSNumber :=
  let trimmed := s.data.dropWhile isStrWhiteSpaceChar
  let (neg, unsigned) := stripSign trimmed
  let (radix, body) := stripRadix unsigned
  let z := body.takeWhile (isRadixDigit radix)
  if z.isEmpty then none
  else
    match roundToDouble (digitsValue radix z) with
    | some m => some (if neg then .finite (-(m : Int)) else .finite (m : Int))
    | none => some (.infinite neg)

/-- The call `parseInt(x)` on the result of `URLSearchParams.get`: `null` is
first converted to the string `"null"`. -/
def parseIntOfGet (x : Option String) : Option JSNumber :=
  parseInt (x.getD "null")

/-- The expression `parseInt(x) || d` for a non-zero default `d`. -/
def parseIntOr (x : Option String) (d : JSNumber) : JSNumber :=
  match parseIntOfGet x with
  | none => d
  | some n => if n = 0 then d else n

/-- The expression `x || undefined` on the result of `get`: `none` is
`undefined`. -/
def orUndefined (x : Option String) : Option String :=
  match x with
  | some s => if s = "" then none else some s
  | none => none

/-- The expression `x || d` on the result of `get`, for a default string. -/
def orDefault (x : Option String) (d : String) : String :=
  match x with
  | some s => if s = "" then d else s
  | none => d

/-! ## The dashboard: decoding and encoding of the Filter Request -/

/-- The decoded Filter Request (the object `queryParams` of `Dashboard`). -/
structure QueryParams where
  page : JSNumber
  limit : JSNumber
  keyword : String
  region : List String
  gender : List String
  status : List String
  paymentMethod : List String
  productCategory : List String
  tags : List String
  deliveryType : List String
  minAge : Option String
  maxAge : Option String
  minAmount : Option String
  maxAmount : Option String
  startDate : Option String
  endDate : Option String
  sortBy : String
  deriving DecidableEq, Repr

/-- The `useMemo` body computing `queryParams` from the URL parameters. -/
def queryParams (searchParams : URLSearchParams) : QueryParams where
  page := parseIntOr (searchParams.get "page") 1
  limit := parseIntOr (searchParams.get "limit") 10
  keyword := orDefault (searchParams.get "keyword") ""
  region := searchParams.getAll "region"
  gender := searchParams.getAll "gender"
  status := searchParams.getAll "status"
  paymentMethod := searchParams.getAll "paymentMethod"
  productCategory := searchParams.getAll "productCategory"
  tags := searchParams.getAll "tags"
  deliveryType := searchParams.getAll "deliveryType"
  minAge := orUndefined (searchParams.get "minAge")
  maxAge := orUndefined (searchParams.get "maxAge")
  minAmount := orUndefined (searchParams.get "minAmount")
  maxAmount := orUndefined (searchParams.get "maxAmount")
  startDate := orUndefined (searchParams.get "startDate")
  endDate := orUndefined (searchParams.get "endDate")
  sortBy := orDefault (searchParams.get "sortBy") "date_desc"

/-- The inner `value.forEach` of `updateParams`: append every element that is
not `null`, `undefined` or `''`. -/
def appendAll (p : URLSearchParams) (key : String) (xs : List JSAtom) :
    URLSearchParams :=
  xs.foldl (fun q v => if v.isPresent then q.append key v.toStr else q) p

/-- One iteration of the `Object.entries(updates).forEach` loop of
`updateParams`. -/
def applyUpdate (newParams : URLSearchParams) (entry : String × JSVal) :
    URLSearchParams :=
  let cleared := newParams.delete entry.1
  match entry.2 with
  | .atom .null => cleared
  | .atom .undefined => cleared
  | .atom a => if a = .str "" then cleared else cleared.set entry.1 a.toStr
  | .arr xs => appendAll cleared entry.1 xs

/-- The callback `updateParams(updates)`: the parameter set handed to
`setSearchParams`, computed from the current one. -/
def updateParams (searchParams : URLSearchParams) (updates : JSObj) :
    URLSearchParams :=
  let newParams := updates.foldl applyUpdate searchParams
  if !updates.hasKey "page" then newParams.set "page" "1" else newParams

/-- The updates object built by `handleFilterChange(newFilters)`. -/
def filterUpdates (newFilters : JSObj) : JSObj :=
  [ ("region", (newFilters.get "region").or (.arr [])),
    ("gender", (newFilters.get "gender").or (.arr [])),
    ("status", (newFilters.get "status").or (.arr [])),
    ("paymentMethod", (newFilters.get "paymentMethod").or (.arr [])),
    ("productCategory", (newFilters.get "productCategory").or (.arr [])),
    ("deliveryType", (newFilters.get "deliveryType").or (.arr [])),
    ("tags", (newFilters.get "tags").or (.arr [])),
    ("minAge", (newFilters.get "minAge").or (.atom .null)),
    ("maxAge", (newFilters.get "maxAge").or (.atom .null)),
    ("minAmount", (newFilters.get "minAmount").or (.atom .null)),
    ("maxAmount", (newFilters.get "maxAmount").or (.atom .null)),
    ("startDate", (newFilters.get "startDate").or (.atom .null)),
    ("endDate", (newFilters.get "endDate").or (.atom .null)) ]

/-- The handler `handleFilterChange(newFilters)`. -/
def handleFilterChange (searchParams : URLSearchParams) (newFilters : JSObj) :
    URLSearchParams :=
  updateParams searchParams (filterUpdates newFilters)

/-- The handler `handleSearch(keyword)`. -/
def handleSearch (searchParams : URLSearchParams) (keyword : JSVal) :
    URLSearchParams :=
  updateParams searchParams [("keyword", keyword)]

/-- The handler `handlePageChange(page)`. -/
def handlePageChange (searchParams : URLSearchParams) (page : JSVal) :
    URLSearchParams :=
  updateParams searchParams [("page", page)]

/-- The handler `handleSortChange(sortBy)`. -/
def handleSortChange (searchParams : URLSearchParams) (sortBy : JSVal) :
    URLSearchParams :=
  updateParams searchParams [("sortBy", sortBy)]

/-- The entries `updateParams` leaves under a key for a given update value:
nothing for `null`, `undefined` and `''`, the kept elements of an array, the
single converted value of any other scalar. -/
def encodeValue : JSVal → List String
  | .atom a => if a.isPresent then [a.toStr] else []
  | .arr xs => (xs.filter JSAtom.isPresent).map JSAtom.toStr

/-- The filter fields of a Filter Request whose membership lists are absent
(`none`) or lists of strings and whose range bounds are absent or strings. -/
structure Filters where
  region : Option (List String)
  gender : Option (List String)
  status : Option (List String)
  paymentMethod : Option (List String)
  productCategory : Option (List String)
  deliveryType : Option (List String)
  tags : Option (List String)
  minAge : Option String
  maxAge : Option String
  minAmount : Option String
  maxAmount : Option String
  startDate : Option String
  endDate : Option String
  deriving DecidableEq, Repr

/-- A membership list as a JavaScript value. -/
def listValue : Option (List String) → JSVal
  | none => .atom .undefined
  | some xs => .arr (xs.map JSAtom.str)

/-- A range bound as a JavaScript value. -/
def boundValue : Option String → JSVal
  | none => .atom .undefined
  | some s => .atom (.str s)

/-- The JavaScript object holding the filter fields. -/
def Filters.toObj (F : Filters) : JSObj :=
  [ ("region", listValue F.region),
    ("gender", listValue F.gender),
    ("status", listValue F.status),
    ("paymentMethod", listValue F.paymentMethod),
    ("productCategory", listValue F.productCategory),
    ("deliveryType", listValue F.deliveryType),
    ("tags", listValue F.tags),
    ("minAge", boundValue F.minAge),
    ("maxAge", boundValue F.maxAge),
    ("minAmount", boundValue F.minAmount),
    ("maxAmount", boundValue F.maxAmount),
    ("startDate", boundValue F.startDate),
    ("endDate", boundValue F.endDate) ]

/-- A membership list holds only non-empty strings. -/
def goodList (o : Option (List String)) : Prop := ∀ xs, o = some xs → "" ∉ xs

/-- A range bound is absent or a non-empty string. -/
def goodBound (o : Option String) : Prop := o ≠ some ""

/-- Every membership list holds only non-empty strings and every range bound is
absent or a non-empty string. -/
def Filters.WellFormed (F : Filters) : Prop :=
  goodList F.region ∧ goodList F.gender ∧ goodList F.status ∧
  goodList F.paymentMethod ∧ goodList F.productCategory ∧
  goodList F.deliveryType ∧ goodList F.tags ∧
  goodBound F.minAge ∧ goodBound F.maxAge ∧ goodBound F.minAmount ∧
  goodBound F.maxAmount ∧ goodBound F.startDate ∧ goodBound F.endDate

/-- A sample filters object: two regions, one tag, an amount ceiling. -/
def sampleFilters : Filters where
  region := some ["North", "South"]
  gender := none
  status := some []
  paymentMethod := none
  productCategory := none
  deliveryType := none
  tags := some ["organic"]
  minAge := none
  maxAge := none
  minAmount := none
  maxAmount := some "900"
  startDate := none
  endDate := none

/-! ## Sort keys and the table header handler -/

/-- The column fields whose headers call `handleSort`. -/
def sortFields : List String := ["id", "date", "customer", "quantity", "amount"]

/-- The ten recognized sort keys, a field followed by a direction. -/
def sortKeys : List String :=
  ["id_asc", "id_desc", "date_asc", "date_desc", "customer_asc", "customer_desc",
   "quantity_asc", "quantity_desc", "amount_asc", "amount_desc"]

/-- Splitting a character sequence at every occurrence of a separator. -/
def splitChars (sep : Char) : List Char → List (List Char)
  | [] => [[]]
  | c :: cs =>
    if c = sep then [] :: splitChars sep cs
    else
      match splitChars sep cs with
      | [] => [[c]]
      | w :: ws => (c :: w) :: ws

/-- The method `s.split(sep)` for a one-character separator. -/
def jsSplit (s : String) (sep : Char) : List String :=
  (splitChars sep s.data).map String.mk

/-- The handler `handleSort(field)` of `TransactionTable`: the key passed to
`onSortChange`, or `none` when no `onSortChange` was supplied and the handler
returns at once. The current `sortBy` is a string or `null` (`none`). -/
def handleSort (hasOnSortChange : Bool) (sortBy : Option String) (field : String) :
    Option String :=
  if !hasOnSortChange then none
  else
    let parts := sortBy.map (fun s => jsSplit s '_')
    let currentField := parts.bind (fun ps => ps[0]?)
    let currentDir := parts.bind (fun ps => ps[1]?)
    if currentField = some field then
      some (field ++ "_" ++ (if currentDir = some "desc" then "asc" else "desc"))
    else
      some (field ++ "_desc")

/-! ## The range inputs of the filter panel -/

/-- The expression `parseInt(text) || fallback` of the `RangeSlider` inputs. -/
def parseIntOrAtom (text : String) (fallback : JSAtom) : JSAtom :=
  match parseInt text with
  | none => fallback
  | some n => if n = 0 then fallback else .num n

/-- The pair handed to `onChange` by the minimum input of `RangeSlider`. -/
def rangeMinChange (min localMax : JSAtom) (text : String) : JSAtom × JSAtom :=
  (parseIntOrAtom text min, localMax)

/-- The pair handed to `onChange` by the maximum input of `RangeSlider`. -/
def rangeMaxChange (max localMin : JSAtom) (text : String) : JSAtom × JSAtom :=
  (localMin, parseIntOrAtom text max)

/-! ## The keyword search query of the setup check -/

/-- Modelled from the spec: the Transaction model (`src/models/Transaction.js`)
is not part of the sources; the three text fields the search query reads. -/
structure Transaction where
  customerName : String
  phone : String
  productName : String
  deriving DecidableEq, Repr

/-- The fields named by the clauses of the search query. -/
inductive SearchField where
  | customerName
  | phone
  | productName
  deriving DecidableEq, Repr

/-- The value a record holds in a searched field. -/
def Transaction.field (r : Transaction) : SearchField → String
  | .customerName => r.customerName
  | .phone => r.phone
  | .productName => r.productName

/-- Terms of the regular-expression fragment that is modelled: a literal
character and the wildcard `.`. -/
inductive RegexAtom where
  | char (c : Char)
  | any
  deriving DecidableEq, Repr

/-- The characters with a special meaning in a pattern:
`^ $ \ . * + ? ( ) [ ] { } |`, given by their code points. -/
def isSyntaxChar (c : Char) : Bool :=
  c.toNat ∈ [94, 36, 92, 46, 42, 43, 63, 40, 41, 91, 93, 123, 125, 124]

/-- Line terminators, which the wildcard does not match. -/
def isLineTerminator (c : Char) : Bool :=
  c.toNat ∈ [0xA, 0xD, 0x2028, 0x2029]

/-- Reading a pattern of the fragment: `.` is the wildcard, a character
without special meaning stands for itself, and a pattern with any other
special character is outside the fragment (`none`). -/
def parsePattern : List Char → Option (List RegexAtom)
  | [] => some []
  | c :: cs =>
    if c = '.' then (parsePattern cs).map (fun p => RegexAtom.any :: p)
    else if isSyntaxChar c then none
    else (parsePattern cs).map (fun p => RegexAtom.char c :: p)

/-- Whether a term matches one input character under the `i` flag; `canon` is
the engine's case canonicalization of a character. -/
def RegexAtom.accepts (canon : Char → Char) : RegexAtom → Char → Bool
  | .char c, d => canon c == canon d
  | .any, d => !isLineTerminator d

/-- Whether the pattern matches at the start of the input. -/
def matchesAt (canon : Char → Char) : List RegexAtom → List Char → Bool
  | [], _ => true
  | _ :: _, [] => false
  | a :: as, d :: ds => a.accepts canon d && matchesAt canon as ds

/-- Unanchored search: the pattern is tried at every start position. -/
def regexSearch (canon : Char → Char) (pat : List RegexAtom) : List Char → Bool
  | [] => matchesAt canon pat []
  | d :: ds => matchesAt canon pat (d :: ds) || regexSearch canon pat ds

/-- The test of a pattern against a string, characters compared after the
canonicalization `canon`; `none` when the pattern is outside the modelled
fragment. -/
def regexTest (canon : Char → Char) (pattern s : String) : Option Bool :=
  (parsePattern pattern.data).map (fun p => regexSearch canon p s.data)

/-- Case canonicalization under the `i` flag: a letter `a` to `z` becomes its
capital and every other character stays as it is. A character outside ASCII
never canonicalizes to an ASCII character, so this is exact whenever one side
of a comparison is an ASCII character, as for every character of `phone`. -/
def canonicalize (c : Char) : Char := c.toUpper

/-- A regular expression object `new RegExp(source, flags)`. -/
structure RegExp where
  source : String
  flags : String
  deriving DecidableEq, Repr

/-- Whether the flags hold `i`. -/
def RegExp.ignoreCase (re : RegExp) : Bool := re.flags.data.contains 'i'

/-- The test of a regular expression against a string: case is ignored exactly
when the `i` flag is set. -/
def RegExp.test (re : RegExp) (s : String) : Option Bool :=
  regexTest (if re.ignoreCase then canonicalize else id) re.source s

/-- The constant `testKeyword` of `checkSetup`. -/
def testKeyword : String := "phone"

/-- The `searchQuery` object of `checkSetup`: the `$or` list of clauses, each a
field with `new RegExp(testKeyword, 'i')`. -/
def searchQuery : List (SearchField × RegExp) :=
  [ (.customerName, { source := testKeyword, flags := "i" }),
    (.phone, { source := testKeyword, flags := "i" }),
    (.productName, { source := testKeyword, flags := "i" }) ]

/-- Whether a record matches an `$or` query: some clause's expression matches
the clause's field. -/
def matchesOr : List (SearchField × RegExp) → Transaction → Option Bool
  | [], _ => some false
  | cl :: rest, r =>
    match cl.2.test (r.field cl.1), matchesOr rest r with
    | some b, some bs => some (b || bs)
    | _, _ => none

/-- The spec's keyword rule for one field: the field contains the keyword as a
substring at some position, characters compared up to case. -/
def containsIgnoringCase (canon : Char → Char) (k field : String) : Prop :=
  (k.data.map canon) <:+: (field.data.map canon)

/-! ## The tags section of the filter panel -/

/-- The method `xs.slice(start, stop)` for non-negative indices. -/
def jsSlice {α : Type} (xs : List α) (start stop : Nat) : List α :=
  (xs.take stop).drop start

/-- The options handed to the Tags checkbox group: `tags.slice(0, 20)`. -/
def tagOptions (tags : List String) : List String := jsSlice tags 0 20

/-- Whether the note `Showing top 20 tags` is rendered: `tags.length > 20`. -/
def showsTopTagsNote (tags : List String) : Bool := decide (tags.length > 20)

/-! ## The export handler -/

/-- A toast raised through the toast context. -/
inductive Toast where
  | success (message : String)
  | error (message : String)
  deriving DecidableEq, Repr

/-- What `handleExport` does, in order: the call of `transactionApi.exportCSV`
with its argument, and the toasts. -/
inductive ExportEffect where
  | exportCSV (params : QueryParams)
  | toast (t : Toast)
  deriving DecidableEq, Repr

/-- The handler `handleExport()`. The function `transactionApi.exportCSV` is a
parameter: it returns normally (`Except.ok`) or throws (`Except.error`). -/
def handleExport {ε : Type} (exportCSV : QueryParams → Except ε Unit)
    (searchParams : URLSearchParams) : List ExportEffect :=
  .exportCSV (queryParams searchParams) ::
    match exportCSV (queryParams searchParams) with
    | .ok _ => [.toast (.success "Export started - check your downloads")]
    | .error _ => [.toast (.error "Export failed")]

/-- The toasts among the effects. -/
def toastsOf : List ExportEffect → List Toast
  | [] => []
  | .toast t :: rest => t :: toastsOf rest
  | .exportCSV _ :: rest => toastsOf rest

/-! ## The pagination object and the stats cards -/

/-- The `pagination` object of a transactions response. -/
structure Pagination where
  page : Nat
  totalPages : Nat
  totalCount : Nat
  deriving DecidableEq, Repr

/-- The body of a transactions response, each part possibly missing; the type
of the rows is left open. -/
structure TransactionsData (α : Type) where
  data : Option (List α)
  pagination : Option Pagination

/-- The expression `transactionsData?.data || []`; `none` is a response that
has not arrived. -/
def transactionsOf {α : Type} (transactionsData : Option (TransactionsData α)) : List α :=
  match transactionsData with
  | some d => d.data.getD []
  | none => []

/-- The expression
`transactionsData?.pagination || { page: 1, totalPages: 1, totalCount: 0 }`. -/
def paginationOf {α : Type} (transactionsData : Option (TransactionsData α)) : Pagination :=
  match transactionsData with
  | some d => d.pagination.getD { page := 1, totalPages := 1, totalCount := 0 }
  | none => { page := 1, totalPages := 1, totalCount := 0 }

/-- The least number of pages of `limit` items holding `totalCount` items:
`ceil(totalCount / limit)`. -/
def ceilDiv (totalCount limit : Nat) : Nat := (totalCount + limit - 1) / limit

/-- One entry of `statusBreakdown`. -/
structure StatusCount where
  status : String
  count : Int
  deriving DecidableEq, Repr

/-- The `stats` object of `Dashboard`, each property possibly missing. -/
structure StatsData where
  totalTransactions : Option Int
  totalRevenue : Option Int
  statusBreakdown : Option (List StatusCount)
  deriving DecidableEq, Repr

/-- The value of the `Completed Orders` card:
`stats.statusBreakdown?.find(s => s.status === 'Completed')?.count.toLocaleString() || '—'`.
The locale formatting of a number is a parameter. -/
def completedOrdersValue (toLocaleString : Int → String) (stats : StatsData) : String :=
  match stats.statusBreakdown with
  | none => "—"
  | some breakdown =>
    match breakdown.find? (fun s => s.status == "Completed") with
    | none => "—"
    | some s => if toLocaleString s.count = "" then "—" else toLocaleString s.count

/-! ## The filter panel: changing one filter -/

/-- The object `{ ...o, [k]: v }`: an existing property keeps its place and
gets the value, a new one comes last. -/
def JSObj.assign (o : JSObj) (k : String) (v : JSVal) : JSObj :=
  if o.hasKey k then o.map (fun e => if e.1 == k then (k, v) else e)
  else o ++ [(k, v)]

namespace FilterPanel

/-- The panel's `handleFilterChange(key, value)`: the object it passes to
`onFilterChange`, built from the `filters` prop of the current render. -/
def handleFilterChange (filters : JSObj) (key : String) (value : JSVal) : JSObj :=
  filters.assign key value

/-- The `onChange` of the age `RangeSlider`: the objects passed to
`onFilterChange`, in call order. -/
def ageRangeChange (filters : JSObj) (range : JSVal × JSVal) : List JSObj :=
  [handleFilterChange filters "minAge" range.1,
   handleFilterChange filters "maxAge" range.2]

/-- The `onChange` of the amount `RangeSlider`: the objects passed to
`onFilterChange`, in call order. -/
def amountRangeChange (filters : JSObj) (range : JSVal × JSVal) : List JSObj :=
  [handleFilterChange filters "minAmount" range.1,
   handleFilterChange filters "maxAmount" range.2]

end FilterPanel

/-- The URL after the dashboard's `handleFilterChange` has been called with
each object in turn within one event handler: every call computes its
parameters from the `searchParams` of the current render and hands them to
`setSearchParams`, so the last call decides. -/
def afterFilterChanges (searchParams : URLSearchParams) (calls : List JSObj) :
    URLSearchParams :=
  calls.foldl (fun _ newFilters => handleFilterChange searchParams newFilters) searchParams

/-- The `filters` prop `Dashboard` hands to `FilterPanel`, built from the
decoded request. -/
def panelFilters (q : QueryParams) : JSObj :=
  [ ("region", listValue (some q.region)),
    ("gender", listValue (some q.gender)),
    ("status", listValue (some q.status)),
    ("paymentMethod", listValue (some q.paymentMethod)),
    ("productCategory", listValue (some q.productCategory)),
    ("tags", listValue (some q.tags)),
    ("deliveryType", listValue (some q.deliveryType)),
    ("minAge", boundValue q.minAge),
    ("maxAge", boundValue q.maxAge),
    ("minAmount", boundValue q.minAmount),
    ("maxAmount", boundValue q.maxAmount),
    ("startDate", boundValue q.startDate),
    ("endDate", boundValue q.endDate) ]

/-! ## The search bar: debounced typing and the clear button -/

/-- A pending timer of the environment: its id, the time it is due and the
argument its callback hands to `onChange`. -/
structure Timer where
  id : Nat
  due : Nat
  arg : String
  deriving DecidableEq, Repr

/-- The state of one mounted `SearchBar`: the clock (ms), the `localValue`
state, the closure variable `timeoutId` of the debounced function that
`useCallback` currently holds (`none` is `undefined`), the pending timers of
all debounced functions created so far in the order they were set, the next
timer id, and the calls of `onChange` made so far (time and value, oldest
first). -/
structure SearchBarState where
  now : Nat
  localValue : String
  timeoutId : Option Nat
  timers : List Timer
  nextId : Nat
  reported : List (Nat × String)
  deriving DecidableEq, Repr

/-- The delay given to `debounce`. -/
def debounceDelay : Nat := 300

namespace SearchBarState

/-- A freshly mounted search bar showing the given value. -/
def mount (value : String) : SearchBarState :=
  { now := 0, localValue := value, timeoutId := none, timers := [], nextId := 1,
    reported := [] }

/-- The call `clearTimeout(id)`: the timer with that id, if still pending, is
dropped; `undefined` and ids of fired timers change nothing. -/
def clearTimeout (s : SearchBarState) (id : Option Nat) : SearchBarState :=
  { s with timers := s.timers.filter (fun t => some t.id != id) }

/-- The call `setTimeout(() => fn(arg), delay)`: the new state and the id. -/
def setTimeout (s : SearchBarState) (arg : String) (delay : Nat) :
    SearchBarState × Nat :=
  ({ s with timers := s.timers ++ [{ id := s.nextId, due := s.now + delay, arg := arg }],
            nextId := s.nextId + 1 }, s.nextId)

/-- A call of the debounced function returned by `debounce(fn, 300)`. -/
def debouncedOnChange (s : SearchBarState) (val : String) : SearchBarState :=
  let cleared := s.clearTimeout s.timeoutId
  let (armed, id) := cleared.setTimeout val debounceDelay
  { armed with timeoutId := some id }

/-- The handler `handleChange(e)` with `e.target.value = val`. -/
def handleChange (s : SearchBarState) (val : String) : SearchBarState :=
  debouncedOnChange { s with localValue := val } val

/-- The handler `handleClear()`: `setLocalValue('')` and `onChange('')`. -/
def handleClear (s : SearchBarState) : SearchBarState :=
  { s with localValue := "", reported := s.reported ++ [(s.now, "")] }

/-- A render of `SearchBar` with a new `onChange` prop, as after every render
of `Dashboard`, whose `handleSearch` is a new function each time: the
dependency of `useCallback` has changed, so `debouncedOnChange` becomes the
function `debounce(...)` made in this render, whose closure variable
`timeoutId` is still `undefined`; a timer set through the previous function
stays pending. -/
def renderWithNewOnChange (s : SearchBarState) : SearchBarState :=
  { s with timeoutId := none }

/-- Let the clock reach `t`: every pending timer due by then runs its
callback, which calls `onChange` with the timer's argument at the due time. -/
def advanceTo (s : SearchBarState) (t : Nat) : SearchBarState :=
  { s with
    now := max s.now t
    timers := s.timers.filter (fun tm => !decide (tm.due ≤ t))
    reported := s.reported ++
      ((s.timers.filter (fun tm => decide (tm.due ≤ t))).map (fun tm => (tm.due, tm.arg))) }

end SearchBarState

/-- What happens to the search bar: the user types or presses the clear
button, or `Dashboard` renders again and passes a new `onChange`. -/
inductive SearchBarEvent where
  | type (val : String)
  | clear
  | parentRender
  deriving DecidableEq, Repr

/-- One event at a given time: the clock first reaches that time. -/
def searchBarStep (s : SearchBarState) (e : Nat × SearchBarEvent) : SearchBarState :=
  match e.2 with
  | .type val => (s.advanceTo e.1).handleChange val
  | .clear => (s.advanceTo e.1).handleClear
  | .parentRender => (s.advanceTo e.1).renderWithNewOnChange

/-- The state after a sequence of timed events, observed at a later time. -/
def searchBarRun (s : SearchBarState) (events : List (Nat × SearchBarEvent))
    (observedAt : Nat) : SearchBarState :=
  (events.foldl searchBarStep s).advanceTo observedAt

/-- The keyword most recently reported to `onChange`, if any. -/
def lastReported (s : SearchBarState) : Option String :=
  s.reported.getLast?.map Prod.snd

/-- A burst of calls: times do not decrease and each call comes less than the
debounce delay after the previous one. -/
def isBurst : List (Nat × String) → Prop
  | [] => True
  | [_] => True
  | a :: b :: rest => a.1 ≤ b.1 ∧ b.1 < a.1 + debounceDelay ∧ isBurst (b :: rest)

/-! ## The requests of the dashboard -/

/-- The argument `Dashboard` gives to `useTransactions`. -/
def transactionsRequest (searchParams : URLSearchParams) : QueryParams :=
  queryParams searchParams

/-- The argument `Dashboard` gives to `useTransactionStats`. -/
def statsRequest (searchParams : URLSearchParams) : QueryParams :=
  queryParams searchParams

/-! ## The query layer of the backend -/

/-- Modelled from the spec: the Transaction Record of section 3; the backend
model (`src/models/Transaction.js`) is missing from the sources. Ages, amounts
and dates are integers. -/
structure TransactionRecord where
  transactionId : String
  customerName : String
  phone : String
  age : Int
  gender : String
  productName : String
  productCategory : String
  quantity : Int
  finalAmount : Int
  paymentMethod : String
  deliveryType : String
  region : String
  tags : List String
  status : String
  date : Int
  deriving DecidableEq, Repr

/-- Modelled from the spec: the filter part of the Filter Request of section 3
as the Query Builder (missing from the sources) holds it: a keyword (`""` when
absent), the accepted-value lists and the range bounds, each absent or a
number. -/
structure FilterRequest where
  keyword : String
  region : List String
  gender : List String
  status : List String
  paymentMethod : List String
  productCategory : List String
  deliveryType : List String
  tags : List String
  minAge : Option Int
  maxAge : Option Int
  minAmount : Option Int
  maxAmount : Option Int
  startDate : Option Int
  endDate : Option Int
  deriving DecidableEq, Repr

/-- Modelled from the spec: the single-valued set-membership fields of the
Filter Request. -/
inductive MemberField where
  | region
  | gender
  | status
  | paymentMethod
  | productCategory
  | deliveryType
  deriving DecidableEq, Repr

/-- Modelled from the spec: the range fields of the Filter Request. -/
inductive RangeField where
  | age
  | amount
  | date
  deriving DecidableEq, Repr

/-- Modelled from the spec: the attribute of a record a membership field is
compared with. -/
def TransactionRecord.member (r : TransactionRecord) : MemberField → String
  | .region => r.region
  | .gender => r.gender
  | .status => r.status
  | .paymentMethod => r.paymentMethod
  | .productCategory => r.productCategory
  | .deliveryType => r.deliveryType

/-- Modelled from the spec: the value of a record a range field is compared
with. -/
def TransactionRecord.measure (r : TransactionRecord) : RangeField → Int
  | .age => r.age
  | .amount => r.finalAmount
  | .date => r.date

/-- Modelled from the spec: one active constraint of the predicate the Query
Builder constructs. -/
inductive Constraint where
  | keyword (k : String)
  | memberOf (f : MemberField) (accepted : List String)
  | anyTagIn (accepted : List String)
  | within (f : RangeField) (min max : Option Int)
  deriving DecidableEq, Repr

instance (canon : Char → Char) (k field : String) :
    Decidable (containsIgnoringCase canon k field) :=
  inferInstanceAs (Decidable (_ <:+: _))

/-- Modelled from the spec: a range whose minimum exceeds its maximum is
malformed (section 4.1, error conditions). -/
def rangeMalformed (min max : Option Int) : Bool :=
  match min, max with
  | some a, some b => decide (b < a)
  | _, _ => false

/-- Modelled from the spec: a range field constrains when at least one bound is
supplied and the range is not malformed. -/
def rangeSupplied (min max : Option Int) : Bool :=
  (min.isSome || max.isSome) && !rangeMalformed min max

/-- Modelled from the spec: the keyword constraint, present for a non-empty
keyword. -/
def keywordConstraint (k : String) : List Constraint :=
  if k = "" then [] else [.keyword k]

/-- Modelled from the spec: the constraint of a set-membership field, present
for a non-empty accepted-value list. -/
def memberConstraint (f : MemberField) (accepted : List String) : List Constraint :=
  if accepted.isEmpty then [] else [.memberOf f accepted]

/-- Modelled from the spec: the constraint of the tags field, present for a
non-empty accepted-value list. -/
def tagConstraint (accepted : List String) : List Constraint :=
  if accepted.isEmpty then [] else [.anyTagIn accepted]

/-- Modelled from the spec: the constraint of a range field, present when the
range is supplied and well formed. -/
def rangeConstraint (f : RangeField) (min max : Option Int) : List Constraint :=
  if rangeSupplied min max then [.within f min max] else []

/-- Modelled from the spec: the predicate construction rules of section 4.1,
the list of the active constraints of a Filter Request. -/
def buildQuery (F : FilterRequest) : List Constraint :=
  keywordConstraint F.keyword ++
  memberConstraint .region F.region ++
  memberConstraint .gender F.gender ++
  memberConstraint .status F.status ++
  memberConstraint .paymentMethod F.paymentMethod ++
  memberConstraint .productCategory F.productCategory ++
  memberConstraint .deliveryType F.deliveryType ++
  tagConstraint F.tags ++
  rangeConstraint .age F.minAge F.maxAge ++
  rangeConstraint .amount F.minAmount F.maxAmount ++
  rangeConstraint .date F.startDate F.endDate

/-- Modelled from the spec: whether a record satisfies one constraint; `canon`
is the case canonicalization of a character. -/
def Constraint.holds (canon : Char → Char) : Constraint → TransactionRecord → Bool
  | .keyword k, r =>
    decide (containsIgnoringCase canon k r.customerName) ||
    decide (containsIgnoringCase canon k r.phone) ||
    decide (containsIgnoringCase canon k r.productName)
  | .memberOf f accepted, r => accepted.contains (r.member f)
  | .anyTagIn accepted, r => r.tags.any (fun t => accepted.contains t)
  | .within f min max, r =>
    (match min with
     | some a => decide (a ≤ r.measure f)
     | none => true) &&
    (match max with
     | some b => decide (r.measure f ≤ b)
     | none => true)

/-- Modelled from the spec: the predicate of a Filter Request, the conjunction
of its active constraints. -/
def matchesRequest (canon : Char → Char) (F : FilterRequest) (r : TransactionRecord) :
    Bool :=
  (buildQuery F).all (fun c => c.holds canon r)

/-- Modelled from the spec: the number of records of the store the Query
Builder predicate matches. -/
def countMatching (canon : Char → Char) (store : List TransactionRecord)
    (F : FilterRequest) : Nat :=
  (store.filter (matchesRequest canon F)).length

/-- Modelled from the spec: the pagination contract of section 4.1: a page
below 1 counts as 1, a limit below 1 as 10, the page count is
`ceil(totalCount / limit)`. -/
def listPagination (canon : Char → Char) (store : List TransactionRecord)
    (F : FilterRequest) (page limit : Int) : Pagination :=
  { page := if page < 1 then 1 else page.toNat
    totalPages := ceilDiv (countMatching canon store F) (if limit < 1 then 10 else limit.toNat)
    totalCount := countMatching canon store F }

/-- Modelled from the spec: the outputs of the Stats Aggregator of
section 4.2. -/
structure Stats where
  totalTransactions : Nat
  totalRevenue : Int
  statusBreakdown : List (String × Nat)
  deriving DecidableEq, Repr

/-- Modelled from the spec: the Stats Aggregator, over the records matching
the predicate of the Filter Request. -/
def aggregate (canon : Char → Char) (store : List TransactionRecord)
    (F : FilterRequest) : Stats :=
  let matching := store.filter (matchesRequest canon F)
  { totalTransactions := matching.length
    totalRevenue := (matching.map (fun r => r.finalAmount)).sum
    statusBreakdown :=
      (matching.map (fun r => r.status)).eraseDups.map
        (fun s => (s, matching.countP (fun r => r.status == s))) }

/-- A filter request without any constraint. -/
def noFilters : FilterRequest :=
  { keyword := "", region := [], gender := [], status := [], paymentMethod := [],
    productCategory := [], deliveryType := [], tags := [],
    minAge := none, maxAge := none, minAmount := none, maxAmount := none,
    startDate := none, endDate := none }

/-- A store of three records with amounts 100, 500 and 900. -/
def sampleStore : List TransactionRecord :=
  [ { transactionId := "T1", customerName := "Asha Rao", phone := "9876543210", age := 31,
      gender := "Female", productName := "iPhone 15", productCategory := "Electronics",
      quantity := 1, finalAmount := 100, paymentMethod := "UPI", deliveryType := "Standard",
      region := "North", tags := ["organic", "new"], status := "Completed", date := 10 },
    { transactionId := "T2", customerName := "John Doe", phone := "9123456780", age := 45,
      gender := "Male", productName := "Laptop", productCategory := "Electronics",
      quantity := 2, finalAmount := 500, paymentMethod := "Card", deliveryType := "Express",
      region := "South", tags := ["sale"], status := "Pending", date := 20 },
    { transactionId := "T3", customerName := "Mira Sen", phone := "9000000001", age := 27,
      gender := "Female", productName := "Desk", productCategory := "Furniture",
      quantity := 1, finalAmount := 900, paymentMethod := "UPI", deliveryType := "Standard",
      region := "North", tags := [], status := "Completed", date := 30 } ]

/-- The body of a response with the given rows and pagination object. -/
def responseOf {α : Type} (rows : Option (List α)) (pagination : Pagination) :
    TransactionsData α :=
  { data := rows, pagination := some pagination }

/-- The typing events of a series of calls of the debounced handler. -/
def typingEvents (calls : List (Nat × String)) : List (Nat × SearchBarEvent) :=
  calls.map (fun c => (c.1, SearchBarEvent.type c.2))

/-- The search bar right after a call of the debounced handler at time `t`
with value `v`: that call's timer is the only pending one, and the calls of
`onChange` made so far are `done`. -/
def armedAt (s : SearchBarState) (t : Nat) (v : String) (done : List (Nat × String)) :
    Prop :=
  ∃ id, s.timers = [{ id := id, due := t + debounceDelay, arg := v }] ∧
    s.timeoutId = some id ∧ s.now = t ∧ s.reported = done

/-! ## The filter panel: chips, clear all and checkbox groups -/

/-- The thirteen filter keys written by the dashboard's `handleFilterChange`. -/
def filterKeys : List String :=
  ["region", "gender", "status", "paymentMethod", "productCategory", "deliveryType",
   "tags", "minAge", "maxAge", "minAmount", "maxAmount", "startDate", "endDate"]

/-- Strict equality `a === b` of scalars: `NaN` equals nothing. -/
def JSAtom.strictEq (a b : JSAtom) : Bool := a == b && a != .nan

/-- The comparison of `Array.prototype.includes` (SameValueZero): as strict
equality, but `NaN` equals `NaN`. -/
def JSAtom.sameValueZero (a b : JSAtom) : Bool := a == b

/-- The chips `ActiveFilters` pushes for one entry of `filters`: one for each
element of a non-empty array, one for a truthy value that is not an array. -/
def chipsOfEntry (e : String × JSVal) : List (String × JSAtom) :=
  match e.2 with
  | .arr xs => if xs.length > 0 then xs.map (fun v => (e.1, v)) else []
  | .atom a => if a.truthy then [(e.1, a)] else []

/-- The list `activeFilters` built by `ActiveFilters` over
`Object.entries(filters)`: the chips as pairs of a key and a value. -/
def activeFilters : JSObj → List (String × JSAtom)
  | [] => []
  | e :: rest => chipsOfEntry e ++ activeFilters rest

namespace FilterPanel

/-- The panel's `handleClearAll()`: the object passed to `onFilterChange`. -/
def handleClearAll : JSObj := []

/-- The panel's `handleRemoveFilter(key, value)`: the object passed to
`onFilterChange`. -/
def handleRemoveFilter (filters : JSObj) (key : String) (value : JSAtom) : JSObj :=
  match filters.get key with
  | .arr xs => handleFilterChange filters key (.arr (xs.filter (fun v => !v.strictEq value)))
  | .atom _ => handleFilterChange filters key (.atom .null)

end FilterPanel

namespace CheckboxGroup

/-- The handler `handleToggle(value)` of `CheckboxGroup`: the list passed to
`onChange`. -/
def handleToggle (selected : List JSAtom) (value : JSAtom) : List JSAtom :=
  if selected.any (fun v => v.sameValueZero value) then
    selected.filter (fun v => !v.strictEq value)
  else selected ++ [value]

end CheckboxGroup

/-! ## The sort indicator of the table header -/

/-- The two sort directions. -/
def sortDirections : List String := ["asc", "desc"]

/-- The method `s.startsWith(t)`. -/
def jsStartsWith (s t : String) : Bool := t.data.isPrefixOf s.data

/-- The method `s.endsWith(t)`. -/
def jsEndsWith (s t : String) : Bool := t.data.isSuffixOf s.data

/-- The icons a column header can show. -/
inductive SortIndicator where
  | arrowUpDown
  | chevronDown
  | chevronUp
  deriving DecidableEq, Repr

/-- The component `SortIcon({ field, currentSort })`: the neutral icon unless
the current sort key starts with the field, then the down chevron for a key
ending in `_desc` and the up chevron otherwise. -/
def SortIcon (field : String) (currentSort : Option String) : SortIndicator :=
  match currentSort with
  | none => .arrowUpDown
  | some cs =>
    if cs = "" || !jsStartsWith cs field then .arrowUpDown
    else if jsEndsWith cs "_desc" then .chevronDown
    else .chevronUp

/-- The other sort direction, as `handleSort` chooses it:
`currentDir === 'desc' ? 'asc' : 'desc'`. -/
def oppositeDirection (d : String) : String := if d = "desc" then "asc" else "desc"

/-! ## Lemmas on URLSearchParams -/

namespace URLSearchParams

theorem get_eq_head_getAll (p : URLSearchParams) (k : String) :
    get p k = (getAll p k).head? := by
  induction p with
  | nil => rfl
  | cons e rest ih =>
    unfold get getAll at ih ⊢
    by_cases h : e.1 = k
    · simp [List.find?_cons, List.filter_cons, h]
    · have hb : (e.1 == k) = false := by simp [h]
      simp only [List.find?_cons, List.filter_cons, hb, Bool.false_eq_true, if_false]
      exact ih

theorem getAll_cons (e : String × String) (p : URLSearchParams) (k : String) :
    getAll (e :: p) k = if e.1 = k then e.2 :: getAll p k else getAll p k := by
  unfold getAll
  by_cases h : e.1 = k
  · simp [List.filter_cons, h]
  · have hb : (e.1 == k) = false := by simpa using h
    simp [List.filter_cons, hb, h]

theorem delete_cons (e : String × String) (p : URLSearchParams) (name : String) :
    delete (e :: p) name = if e.1 = name then delete p name else e :: delete p name := by
  unfold delete
  by_cases h : e.1 = name
  · simp [List.filter_cons, h]
  · simp [List.filter_cons, h]

theorem getAll_delete (p : URLSearchParams) (name k : String) :
    getAll (delete p name) k = if k = name then [] else getAll p k := by
  induction p with
  | nil => simp [getAll, delete]
  | cons e rest ih =>
    rw [delete_cons]
    by_cases h1 : e.1 = name
    · rw [if_pos h1, ih, getAll_cons]
      by_cases h3 : k = name
      · simp [h3]
      · have : ¬ e.1 = k := fun h => h3 (h ▸ h1)
        simp [h3, this]
    · rw [if_neg h1, getAll_cons, getAll_cons, ih]
      by_cases h3 : k = name
      · subst h3
        simp [h1]
      · simp [h3]

theorem getAll_append (p : URLSearchParams) (name value k : String) :
    getAll (append p name value) k =
      if k = name then getAll p k ++ [value] else getAll p k := by
  induction p with
  | nil =>
    by_cases h : k = name
    · simp [append, getAll_cons, getAll, h]
    · have : ¬ name = k := fun h' => h h'.symm
      simp [append, getAll_cons, getAll, h, this]
  | cons e rest ih =>
    have hc : append (e :: rest) name value = e :: append rest name value := rfl
    rw [hc, getAll_cons, getAll_cons, ih]
    by_cases h : k = name
    · subst h
      by_cases h2 : e.1 = k <;> simp [h2]
    · simp [h]

theorem getAll_eq_nil_of_not_any (p : URLSearchParams) (k : String)
    (h : p.any (fun e => e.1 == k) = false) : getAll p k = [] := by
  induction p with
  | nil => rfl
  | cons e rest ih =>
    simp only [List.any_cons, Bool.or_eq_false_iff] at h
    have h1 : ¬ e.1 = k := by simpa using h.1
    rw [getAll_cons, if_neg h1]
    exact ih h.2

theorem getAll_setFirst (p : URLSearchParams) (name value k : String)
    (h : p.any (fun e => e.1 == name) = true) :
    getAll (setFirst name value p) k = if k = name then [value] else getAll p k := by
  induction p with
  | nil => simp at h
  | cons e rest ih =>
    by_cases h1 : e.1 = name
    · have hs : setFirst name value (e :: rest) = (name, value) :: delete rest name := by
        simp [setFirst, h1]
      rw [hs, getAll_cons, getAll_delete, getAll_cons]
      by_cases h3 : k = name
      · simp [h3]
      · have h4 : ¬ name = k := fun h' => h3 h'.symm
        have h5 : ¬ e.1 = k := fun h' => h3 (h' ▸ h1)
        simp [h3, h4, h5]
    · have hb : (e.1 == name) = false := by simpa using h1
      have hs : setFirst name value (e :: rest) = e :: setFirst name value rest := by
        simp [setFirst, hb]
      simp only [List.any_cons, hb, Bool.false_or] at h
      rw [hs, getAll_cons, getAll_cons, ih h]
      by_cases h3 : k = name
      · subst h3
        simp [h1]
      · simp [h3]

theorem getAll_set (p : URLSearchParams) (name value k : String) :
    getAll (set p name value) k = if k = name then [value] else getAll p k := by
  unfold set
  by_cases h : p.any (fun e => e.1 == name) = true
  · rw [if_pos h]; exact getAll_setFirst p name value k h
  · have h' : p.any (fun e => e.1 == name) = false := by
      cases hb : p.any (fun e => e.1 == name)
      · rfl
      · exact absurd hb h
    rw [if_neg h, getAll_append]
    by_cases h3 : k = name
    · subst h3; simp [getAll_eq_nil_of_not_any p k h']
    · simp [h3]

end URLSearchParams


/-! ## Lemmas on updateParams -/

theorem getAll_appendAll (p : URLSearchParams) (key : String) (xs : List JSAtom)
    (k : String) :
    (appendAll p key xs).getAll k =
      if k = key then p.getAll k ++ (xs.filter JSAtom.isPresent).map JSAtom.toStr
      else p.getAll k := by
  induction xs generalizing p with
  | nil => simp [appendAll]
  | cons x xs ih =>
    have hc : appendAll p key (x :: xs) =
        appendAll (if x.isPresent then p.append key x.toStr else p) key xs := rfl
    rw [hc, ih]
    by_cases hk : k = key
    · subst hk
      by_cases hx : x.isPresent = true
      · simp [hx, URLSearchParams.getAll_append, List.filter_cons]
      · simp [hx, List.filter_cons]
    · by_cases hx : x.isPresent = true
      · simp [hk, hx, URLSearchParams.getAll_append]
      · simp [hk, hx]

theorem getAll_applyUpdate (p : URLSearchParams) (key : String) (v : JSVal)
    (k : String) :
    (applyUpdate p (key, v)).getAll k =
      if k = key then encodeValue v else p.getAll k := by
  by_cases hk : k = key
  · subst hk
    cases v with
    | arr xs =>
      simp [applyUpdate, getAll_appendAll, URLSearchParams.getAll_delete, encodeValue]
    | atom a =>
      cases a with
      | str s =>
        by_cases hs : s = ""
        · simp [applyUpdate, URLSearchParams.getAll_delete, encodeValue,
            JSAtom.isPresent, hs]
        · simp [applyUpdate, URLSearchParams.getAll_set, encodeValue,
            JSAtom.isPresent, hs]
      | _ =>
        simp [applyUpdate, URLSearchParams.getAll_delete, URLSearchParams.getAll_set,
          encodeValue, JSAtom.isPresent]
  · cases v with
    | arr xs =>
      simp [applyUpdate, getAll_appendAll, URLSearchParams.getAll_delete, hk]
    | atom a =>
      cases a with
      | str s =>
        by_cases hs : s = ""
        · simp [applyUpdate, URLSearchParams.getAll_delete, hs, hk]
        · simp [applyUpdate, URLSearchParams.getAll_set, URLSearchParams.getAll_delete,
            hs, hk]
      | _ =>
        simp [applyUpdate, URLSearchParams.getAll_delete, URLSearchParams.getAll_set, hk]

theorem getAll_foldl_of_not_mem (us : JSObj) (p : URLSearchParams) (k : String)
    (h : k ∉ us.keys) : (us.foldl applyUpdate p).getAll k = p.getAll k := by
  induction us generalizing p with
  | nil => rfl
  | cons u us ih =>
    have hk : ¬ k = u.1 := fun h' => h (by simp [JSObj.keys, h'])
    have hrest : k ∉ JSObj.keys us := fun h' => h (by
      simp only [JSObj.keys, List.map_cons, List.mem_cons]
      exact Or.inr h')
    rw [List.foldl_cons, ih _ hrest]
    have := getAll_applyUpdate p u.1 u.2 k
    simpa [hk] using this

theorem getAll_foldl_of_mem (us : JSObj) (p : URLSearchParams) (k : String)
    (v : JSVal) (hnd : us.keys.Nodup) (hmem : (k, v) ∈ us) :
    (us.foldl applyUpdate p).getAll k = encodeValue v := by
  induction us generalizing p with
  | nil => simp at hmem
  | cons u us ih =>
    have hnd' : (u.1 :: JSObj.keys us).Nodup := hnd
    rw [List.nodup_cons] at hnd'
    rw [List.foldl_cons]
    rcases List.mem_cons.1 hmem with h | h
    · subst h
      rw [getAll_foldl_of_not_mem us _ k hnd'.1]
      simpa using getAll_applyUpdate p k v k
    · exact ih _ hnd'.2 h

theorem hasKey_iff_mem_keys (us : JSObj) (k : String) :
    us.hasKey k = true ↔ k ∈ us.keys := by
  simp [JSObj.hasKey, JSObj.keys]

theorem getAll_updateParams_of_mem (sp : URLSearchParams) (us : JSObj)
    (k : String) (v : JSVal) (hnd : us.keys.Nodup) (hmem : (k, v) ∈ us) :
    (updateParams sp us).getAll k = encodeValue v := by
  have hk : k ∈ us.keys := List.mem_map.2 ⟨(k, v), hmem, rfl⟩
  unfold updateParams
  by_cases hp : us.hasKey "page" = true
  · simp only [hp, Bool.not_true, Bool.false_eq_true, if_false]
    exact getAll_foldl_of_mem us sp k v hnd hmem
  · have hne : ¬ k = "page" := fun h => hp ((hasKey_iff_mem_keys us "page").2 (h ▸ hk))
    have hp' : us.hasKey "page" = false := by
      cases hb : us.hasKey "page"
      · rfl
      · exact absurd hb hp
    simp only [hp', Bool.not_false, if_true]
    rw [URLSearchParams.getAll_set, if_neg hne]
    exact getAll_foldl_of_mem us sp k v hnd hmem

theorem getAll_page_of_no_page_key (sp : URLSearchParams) (us : JSObj)
    (h : us.hasKey "page" = false) : (updateParams sp us).getAll "page" = ["1"] := by
  unfold updateParams
  simp only [h, Bool.not_false, if_true]
  rw [URLSearchParams.getAll_set]
  simp

theorem encodeValue_strings (ss : List String) :
    encodeValue (.arr (ss.map JSAtom.str)) = ss.filter (fun x => x != "") := by
  induction ss with
  | nil => rfl
  | cons x xs ih =>
    simp only [encodeValue] at ih ⊢
    by_cases hx : x = ""
    · simp [List.filter_cons, JSAtom.isPresent, hx, ih]
    · simp [List.filter_cons, JSAtom.isPresent, hx, ih, JSAtom.toStr]

theorem encodeValue_listValue (o : Option (List String)) (h : goodList o) :
    encodeValue ((listValue o).or (.arr [])) = o.getD [] := by
  cases o with
  | none => rfl
  | some xs =>
    have hne : "" ∉ xs := h xs rfl
    have hor : (listValue (some xs)).or (.arr []) = .arr (xs.map JSAtom.str) := rfl
    rw [hor, encodeValue_strings]
    simp only [Option.getD_some]
    apply List.filter_eq_self.2
    intro a ha
    have : a ≠ "" := fun h' => hne (h' ▸ ha)
    simpa using this

theorem encodeValue_boundValue (o : Option String) (h : goodBound o) :
    orUndefined ((encodeValue ((boundValue o).or (.atom .null))).head?) = o := by
  cases o with
  | none => rfl
  | some s =>
    have hs : s ≠ "" := fun h' => h (by rw [h'])
    simp [boundValue, JSVal.or, JSVal.truthy, JSAtom.truthy, encodeValue,
      JSAtom.isPresent, JSAtom.toStr, orUndefined, hs]

theorem filterUpdates_keys_nodup (o : JSObj) : (filterUpdates o).keys.Nodup := by
  simp only [filterUpdates, JSObj.keys, List.map_cons, List.map_nil]
  decide

theorem JSNumber.zero_eq : (0 : JSNumber) = .finite 0 := rfl

theorem JSNumber.one_eq : (1 : JSNumber) = .finite 1 := rfl

theorem JSNumber.ne_zero_of_one_le (d : JSNumber) (hd : 1 ≤ d) : d ≠ 0 := by
  intro h
  subst h
  exact absurd hd (by decide)

theorem JSNumber.one_le_iff_not_neg (n : JSNumber) (hn : n ≠ 0) : 1 ≤ n ↔ ¬ n < 0 := by
  cases n with
  | finite k =>
    have hk : k ≠ 0 := fun h => hn (by rw [h]; rfl)
    have h1 : (1 : JSNumber) ≤ .finite k ↔ 1 ≤ k := by
      show JSNumber.le (.finite 1) (.finite k) = true ↔ 1 ≤ k
      simp [JSNumber.le]
    have h2 : (JSNumber.finite k) < 0 ↔ k < 0 := by
      show JSNumber.lt (.finite k) (.finite 0) = true ↔ k < 0
      simp only [JSNumber.lt, JSNumber.le, Bool.and_eq_true, decide_eq_true_eq, bne_iff_ne,
        ne_eq, JSNumber.finite.injEq]
      omega
    rw [h1, h2]
    omega
  | infinite negative =>
    cases negative
    · exact ⟨fun _ => by decide, fun _ => by decide⟩
    · exact ⟨fun h => absurd h (by decide), fun h => absurd (by decide) h⟩

theorem parseIntOr_spec (x : Option String) (d : JSNumber) (hd : 1 ≤ d) :
    (x = none → parseIntOr x d = d) ∧
    (∀ s, x = some s → parseInt s = none → parseIntOr x d = d) ∧
    (∀ s, x = some s → parseInt s = some 0 → parseIntOr x d = d) ∧
    (∀ s n, x = some s → parseInt s = some n → n ≠ 0 → parseIntOr x d = n) ∧
    parseIntOr x d ≠ 0 ∧
    (1 ≤ parseIntOr x d ↔ ¬ ∃ s n, x = some s ∧ parseInt s = some n ∧ n < 0) := by
  have hd0 : d ≠ 0 := JSNumber.ne_zero_of_one_le d hd
  have hnull : parseInt "null" = none := by decide
  have hnone : parseIntOr none d = d := by
    simp [parseIntOr, parseIntOfGet, hnull]
  have hnan : ∀ s, parseInt s = none → parseIntOr (some s) d = d := by
    intro s hp
    simp [parseIntOr, parseIntOfGet, hp]
  have hzero : ∀ s, parseInt s = some 0 → parseIntOr (some s) d = d := by
    intro s hp
    simp [parseIntOr, parseIntOfGet, hp]
  have hkeep : ∀ s n, parseInt s = some n → n ≠ 0 → parseIntOr (some s) d = n := by
    intro s n hp hn
    simp [parseIntOr, parseIntOfGet, hp, hn]
  have hnotneg0 : ¬ (0 : JSNumber) < 0 := by decide
  refine ⟨?_, ?_, ?_, ?_, ?_, ?_⟩
  · intro h; rw [h]; exact hnone
  · intro s h hp; rw [h]; exact hnan s hp
  · intro s h hp; rw [h]; exact hzero s hp
  · intro s n h hp hn; rw [h]; exact hkeep s n hp hn
  · cases x with
    | none => rw [hnone]; exact hd0
    | some s =>
      cases hp : parseInt s with
      | none => rw [hnan s hp]; exact hd0
      | some n =>
        by_cases hn : n = 0
        · subst hn; rw [hzero s hp]; exact hd0
        · rw [hkeep s n hp hn]; exact hn
  · cases x with
    | none =>
      rw [hnone]
      constructor
      · rintro _ ⟨s, n, h, _⟩
        cases h
      · intro _; exact hd
    | some s =>
      cases hp : parseInt s with
      | none =>
        rw [hnan s hp]
        constructor
        · rintro _ ⟨s', n, h, hp', _⟩
          cases h
          rw [hp] at hp'
          cases hp'
        · intro _; exact hd
      | some n =>
        by_cases hn : n = 0
        · subst hn
          rw [hzero s hp]
          constructor
          · rintro _ ⟨s', n, h, hp', hlt⟩
            cases h
            rw [hp] at hp'
            cases hp'
            exact hnotneg0 hlt
          · intro _; exact hd
        · rw [hkeep s n hp hn]
          constructor
          · rintro hge ⟨s', n', h, hp', hlt⟩
            cases h
            rw [hp] at hp'
            cases hp'
            exact ((JSNumber.one_le_iff_not_neg n hn).1 hge) hlt
          · intro hno
            apply (JSNumber.one_le_iff_not_neg n hn).2
            intro hlt
            exact hno ⟨s, n, rfl, hp, hlt⟩

/-! ## Lemmas on the keyword search -/

theorem parsePattern_literal (k : List Char) (hk : ∀ c ∈ k, isSyntaxChar c = false) :
    parsePattern k = some (k.map RegexAtom.char) := by
  induction k with
  | nil => rfl
  | cons c cs ih =>
    have hc : isSyntaxChar c = false := hk c (List.mem_cons_self c cs)
    have hdot : c ≠ '.' := by
      intro h
      subst h
      exact absurd hc (by decide)
    have ih' := ih (fun x hx => hk x (List.mem_cons_of_mem c hx))
    simp [parsePattern, hdot, hc, ih']

theorem matchesAt_literal (canon : Char → Char) (k s : List Char) :
    matchesAt canon (k.map RegexAtom.char) s = true ↔ k.map canon <+: s.map canon := by
  induction k generalizing s with
  | nil => simp [matchesAt]
  | cons c cs ih =>
    cases s with
    | nil => simp [matchesAt]
    | cons d ds =>
      simp only [List.map_cons, matchesAt, RegexAtom.accepts, Bool.and_eq_true,
        beq_iff_eq, ih ds, List.cons_prefix_cons]

theorem regexSearch_literal (canon : Char → Char) (k s : List Char) :
    regexSearch canon (k.map RegexAtom.char) s = true ↔
      k.map canon <:+: s.map canon := by
  induction s with
  | nil =>
    simp only [regexSearch, matchesAt_literal, List.map_nil, List.prefix_nil,
      List.infix_nil]
  | cons d ds ih =>
    simp only [regexSearch, Bool.or_eq_true, matchesAt_literal, ih, List.map_cons,
      List.infix_cons_iff]

theorem regexTest_literal (canon : Char → Char) (k s : String)
    (hk : ∀ c ∈ k.data, isSyntaxChar c = false) :
    ∃ b, regexTest canon k s = some b ∧ (b = true ↔ containsIgnoringCase canon k s) := by
  refine ⟨regexSearch canon (k.data.map RegexAtom.char) s.data, ?_, ?_⟩
  · simp [regexTest, parsePattern_literal k.data hk]
  · exact regexSearch_literal canon k.data s.data

/-- The result of `parseInt` is a double: an integer beyond 2^53 is rounded to
the nearest one, ties to even, and a digit string beyond the largest double
gives `Infinity`, which the page and the limit of the decoded request keep. -/
theorem parseInt_double_examples :
    parseInt "9007199254740993" = some 9007199254740992 ∧
    parseInt "9007199254740995" = some 9007199254740996 ∧
    parseInt "-9007199254740993" = some (-9007199254740992) ∧
    parseInt (String.mk (List.replicate 400 '9')) = some (.infinite false) ∧
    (queryParams [("page", String.mk (List.replicate 400 '9'))]).page = .infinite false ∧
    (queryParams [("limit", String.mk ('1' :: List.replicate 400 '0'))]).limit =
      .infinite false ∧
    (1 : JSNumber) ≤ .infinite false := by
  decide!

/-! ## The claims -/

/-- C6 (query-string encoding). After `updateParams`, a key of the updates
object whose value is an array has as its complete `getAll` list exactly the
array's elements that are not `null`, `undefined` or `''`, in their order (for
an array of strings: its non-empty strings themselves), and a key whose value
is a non-empty scalar has exactly one entry holding that value; the entries
the key had before are gone. -/
theorem updateParams_encoding (searchParams : URLSearchParams) (updates : JSObj)
    (key : String) (hkeys : updates.keys.Nodup) :
    (∀ xs, (key, JSVal.arr xs) ∈ updates →
      (updateParams searchParams updates).getAll key =
        (xs.filter JSAtom.isPresent).map JSAtom.toStr) ∧
    (∀ ss : List String, (key, JSVal.arr (ss.map JSAtom.str)) ∈ updates →
      (updateParams searchParams updates).getAll key = ss.filter (fun x => x != "")) ∧
    (∀ a, (key, JSVal.atom a) ∈ updates →
      a ≠ .null → a ≠ .undefined → a ≠ .str "" →
      (updateParams searchParams updates).getAll key = [a.toStr]) := by
  refine ⟨?_, ?_, ?_⟩
  · intro xs hmem
    rw [getAll_updateParams_of_mem searchParams updates key _ hkeys hmem]
    rfl
  · intro ss hmem
    rw [getAll_updateParams_of_mem searchParams updates key _ hkeys hmem]
    exact encodeValue_strings ss
  · intro a hmem h1 h2 h3
    rw [getAll_updateParams_of_mem searchParams updates key _ hkeys hmem]
    cases a with
    | str s =>
      have hs : s ≠ "" := fun h => h3 (by rw [h])
      simp [encodeValue, JSAtom.isPresent, hs]
    | null => exact absurd rfl h1
    | undefined => exact absurd rfl h2
    | _ => simp [encodeValue, JSAtom.isPresent]

/-- Witness for C6: a region update with an empty element over a URL that
already holds a region. -/
theorem updateParams_encoding_witness :
    (updateParams [("region", "East"), ("page", "4")]
        [("region", .arr [.str "North", .str "", .str "South"]),
         ("sortBy", .atom (.str "id_asc"))]).getAll "region" = ["North", "South"] ∧
    (updateParams [("region", "East"), ("page", "4")]
        [("region", .arr [.str "North", .str "", .str "South"]),
         ("sortBy", .atom (.str "id_asc"))]).getAll "sortBy" = ["id_asc"] :=
  ⟨(updateParams_encoding [("region", "East"), ("page", "4")]
      [("region", .arr [.str "North", .str "", .str "South"]),
       ("sortBy", .atom (.str "id_asc"))] "region" (by decide)).1
      [.str "North", .str "", .str "South"] (by decide),
   (updateParams_encoding [("region", "East"), ("page", "4")]
      [("region", .arr [.str "North", .str "", .str "South"]),
       ("sortBy", .atom (.str "id_asc"))] "sortBy" (by decide)).2.2
      (.str "id_asc") (by decide) (by decide) (by decide) (by decide)⟩

/-- C7 (no-constraint encoding). A key of the updates object whose value is
`null`, `undefined`, the empty string or the empty list has no entry at all
after `updateParams`: decoding gives the empty list for a membership field
(`getAll`) and `undefined` for a range bound (`get(...) || undefined`). -/
theorem updateParams_no_constraint (searchParams : URLSearchParams)
    (updates : JSObj) (key : String) (v : JSVal) (hkeys : updates.keys.Nodup)
    (hmem : (key, v) ∈ updates)
    (hv : v = .atom .null ∨ v = .atom .undefined ∨ v = .atom (.str "") ∨ v = .arr []) :
    (updateParams searchParams updates).getAll key = [] ∧
    (updateParams searchParams updates).get key = none ∧
    orUndefined ((updateParams searchParams updates).get key) = none := by
  have hall : (updateParams searchParams updates).getAll key = [] := by
    rw [getAll_updateParams_of_mem searchParams updates key v hkeys hmem]
    rcases hv with h | h | h | h <;> subst h <;> rfl
  have hget : (updateParams searchParams updates).get key = none := by
    rw [URLSearchParams.get_eq_head_getAll, hall]
    rfl
  exact ⟨hall, hget, by rw [hget]; rfl⟩

/-- Witness for C7: clearing the status list and the minimum age of a URL
that holds both. -/
theorem updateParams_no_constraint_witness :
    (updateParams [("status", "Pending"), ("minAge", "30"), ("status", "Returned")]
        [("status", .arr []), ("minAge", .atom .null)]).getAll "status" = [] ∧
    orUndefined ((updateParams [("status", "Pending"), ("minAge", "30"), ("status", "Returned")]
        [("status", .arr []), ("minAge", .atom .null)]).get "minAge") = none :=
  ⟨(updateParams_no_constraint
      [("status", "Pending"), ("minAge", "30"), ("status", "Returned")]
      [("status", .arr []), ("minAge", .atom .null)] "status" (.arr [])
      (by decide) (by decide) (by simp)).1,
   (updateParams_no_constraint
      [("status", "Pending"), ("minAge", "30"), ("status", "Returned")]
      [("status", .arr []), ("minAge", .atom .null)] "minAge" (.atom .null)
      (by decide) (by decide) (by simp)).2.2⟩

/-- C8 (page reset). When the updates object has no `page` key (the keyword,
filter and sort handlers), `updateParams` leaves exactly one `page` entry,
`'1'`; when it has a `page` key with a non-empty scalar value `p` (the page
handler), the one `page` entry is `p` and no reset happens. -/
theorem updateParams_page_reset (searchParams : URLSearchParams) (updates : JSObj) :
    (updates.hasKey "page" = false →
      (updateParams searchParams updates).get "page" = some "1" ∧
      (updateParams searchParams updates).getAll "page" = ["1"]) ∧
    (∀ p : JSAtom, updates.keys.Nodup → ("page", JSVal.atom p) ∈ updates →
      p.isPresent = true →
      (updateParams searchParams updates).get "page" = some p.toStr ∧
      (updateParams searchParams updates).getAll "page" = [p.toStr]) ∧
    (∀ keyword, (handleSearch searchParams keyword).get "page" = some "1") ∧
    (∀ newFilters, (handleFilterChange searchParams newFilters).get "page" = some "1") ∧
    (∀ sortBy, (handleSortChange searchParams sortBy).get "page" = some "1") ∧
    (∀ p : JSAtom, p.isPresent = true →
      (handlePageChange searchParams (.atom p)).get "page" = some p.toStr) := by
  have hreset : ∀ us : JSObj, us.hasKey "page" = false →
      (updateParams searchParams us).get "page" = some "1" := by
    intro us h
    rw [URLSearchParams.get_eq_head_getAll, getAll_page_of_no_page_key searchParams us h]
    rfl
  have hkeep : ∀ (us : JSObj) (p : JSAtom), us.keys.Nodup → ("page", JSVal.atom p) ∈ us →
      p.isPresent = true → (updateParams searchParams us).getAll "page" = [p.toStr] := by
    intro us p hnd hmem hp
    rw [getAll_updateParams_of_mem searchParams us "page" _ hnd hmem]
    simp [encodeValue, hp]
  refine ⟨?_, ?_, ?_, ?_, ?_, ?_⟩
  · intro h
    exact ⟨hreset updates h, getAll_page_of_no_page_key searchParams updates h⟩
  · intro p hnd hmem hp
    refine ⟨?_, hkeep updates p hnd hmem hp⟩
    rw [URLSearchParams.get_eq_head_getAll, hkeep updates p hnd hmem hp]
    rfl
  · intro keyword
    exact hreset _ (by simp [JSObj.hasKey])
  · intro newFilters
    exact hreset _ (by simp [JSObj.hasKey, filterUpdates])
  · intro sortBy
    exact hreset _ (by simp [JSObj.hasKey])
  · intro p hp
    unfold handlePageChange
    rw [URLSearchParams.get_eq_head_getAll,
      hkeep [("page", .atom p)] p (by simp [JSObj.keys]) (by simp) hp]
    rfl

/-- Witness for C8: a sort change on page 4 resets the page, a page change to
3 does not. -/
theorem updateParams_page_reset_witness :
    (updateParams [("page", "4"), ("sortBy", "date_desc")]
        [("sortBy", .atom (.str "amount_asc"))]).get "page" = some "1" ∧
    (updateParams [("page", "4"), ("sortBy", "date_desc")]
        [("page", .atom (.num 3))]).get "page" = some "3" :=
  ⟨((updateParams_page_reset [("page", "4"), ("sortBy", "date_desc")]
      [("sortBy", .atom (.str "amount_asc"))]).1 (by decide)).1,
   ((updateParams_page_reset [("page", "4"), ("sortBy", "date_desc")]
      [("page", .atom (.num 3))]).2.1 (.num 3) (by decide) (by decide) (by decide)).1⟩

/-- C1 (encode/decode round trip). For every previous URL and every filters
object whose membership lists hold only non-empty strings and whose range
bounds are absent or non-empty strings, decoding the parameters that
`handleFilterChange` produces gives back the same lists in the same order (an
absent list as the empty list) and the same bounds (an absent bound as
`undefined`). -/
theorem filter_roundtrip (prev : URLSearchParams) (F : Filters)
    (hF : F.WellFormed) :
    (queryParams (handleFilterChange prev F.toObj)).region = F.region.getD [] ∧
    (queryParams (handleFilterChange prev F.toObj)).gender = F.gender.getD [] ∧
    (queryParams (handleFilterChange prev F.toObj)).status = F.status.getD [] ∧
    (queryParams (handleFilterChange prev F.toObj)).paymentMethod =
      F.paymentMethod.getD [] ∧
    (queryParams (handleFilterChange prev F.toObj)).productCategory =
      F.productCategory.getD [] ∧
    (queryParams (handleFilterChange prev F.toObj)).deliveryType =
      F.deliveryType.getD [] ∧
    (queryParams (handleFilterChange prev F.toObj)).tags = F.tags.getD [] ∧
    (queryParams (handleFilterChange prev F.toObj)).minAge = F.minAge ∧
    (queryParams (handleFilterChange prev F.toObj)).maxAge = F.maxAge ∧
    (queryParams (handleFilterChange prev F.toObj)).minAmount = F.minAmount ∧
    (queryParams (handleFilterChange prev F.toObj)).maxAmount = F.maxAmount ∧
    (queryParams (handleFilterChange prev F.toObj)).startDate = F.startDate ∧
    (queryParams (handleFilterChange prev F.toObj)).endDate = F.endDate := by
  obtain ⟨h1, h2, h3, h4, h5, h6, h7, h8, h9, h10, h11, h12, h13⟩ := hF
  have hnd := filterUpdates_keys_nodup F.toObj
  have hlist : ∀ (k : String) (o : Option (List String)), goodList o →
      (k, (listValue o).or (.arr [])) ∈ filterUpdates F.toObj →
      (handleFilterChange prev F.toObj).getAll k = o.getD [] := by
    intro k o ho hmem
    unfold handleFilterChange
    rw [getAll_updateParams_of_mem prev _ k _ hnd hmem]
    exact encodeValue_listValue o ho
  have hbound : ∀ (k : String) (o : Option String), goodBound o →
      (k, (boundValue o).or (.atom .null)) ∈ filterUpdates F.toObj →
      orUndefined ((handleFilterChange prev F.toObj).get k) = o := by
    intro k o ho hmem
    unfold handleFilterChange
    rw [URLSearchParams.get_eq_head_getAll, getAll_updateParams_of_mem prev _ k _ hnd hmem]
    exact encodeValue_boundValue o ho
  refine ⟨?_, ?_, ?_, ?_, ?_, ?_, ?_, ?_, ?_, ?_, ?_, ?_, ?_⟩
  · exact hlist "region" F.region h1 (by simp [filterUpdates, Filters.toObj, JSObj.get])
  · exact hlist "gender" F.gender h2 (by simp [filterUpdates, Filters.toObj, JSObj.get])
  · exact hlist "status" F.status h3 (by simp [filterUpdates, Filters.toObj, JSObj.get])
  · exact hlist "paymentMethod" F.paymentMethod h4
      (by simp [filterUpdates, Filters.toObj, JSObj.get])
  · exact hlist "productCategory" F.productCategory h5
      (by simp [filterUpdates, Filters.toObj, JSObj.get])
  · exact hlist "deliveryType" F.deliveryType h6
      (by simp [filterUpdates, Filters.toObj, JSObj.get])
  · exact hlist "tags" F.tags h7 (by simp [filterUpdates, Filters.toObj, JSObj.get])
  · exact hbound "minAge" F.minAge h8 (by simp [filterUpdates, Filters.toObj, JSObj.get])
  · exact hbound "maxAge" F.maxAge h9 (by simp [filterUpdates, Filters.toObj, JSObj.get])
  · exact hbound "minAmount" F.minAmount h10
      (by simp [filterUpdates, Filters.toObj, JSObj.get])
  · exact hbound "maxAmount" F.maxAmount h11
      (by simp [filterUpdates, Filters.toObj, JSObj.get])
  · exact hbound "startDate" F.startDate h12
      (by simp [filterUpdates, Filters.toObj, JSObj.get])
  · exact hbound "endDate" F.endDate h13
      (by simp [filterUpdates, Filters.toObj, JSObj.get])

/-- Witness for C1: the sample filters over a URL that already holds a
region, a minimum age and a page. -/
theorem filter_roundtrip_witness :
    (queryParams (handleFilterChange
        [("region", "East"), ("minAge", "18"), ("page", "3")] sampleFilters.toObj)).region
      = ["North", "South"] ∧
    (queryParams (handleFilterChange
        [("region", "East"), ("minAge", "18"), ("page", "3")] sampleFilters.toObj)).minAge
      = none :=
  have h := filter_roundtrip [("region", "East"), ("minAge", "18"), ("page", "3")]
    sampleFilters (by simp [Filters.WellFormed, goodList, goodBound, sampleFilters])
  ⟨h.1, h.2.2.2.2.2.2.2.1⟩

/-- C3, as the code has it (page default). The decoded page is a number that
is neither `NaN` nor zero: it is exactly 1 when the `page` parameter is absent,
non-numeric or parses to 0, and it is the number `parseInt` returns otherwise,
a negative one included; so it is at least 1 exactly when the parsed value is
not negative. -/
theorem page_default (searchParams : URLSearchParams) :
    (searchParams.get "page" = none → (queryParams searchParams).page = 1) ∧
    (∀ s, searchParams.get "page" = some s → parseInt s = none →
      (queryParams searchParams).page = 1) ∧
    (∀ s, searchParams.get "page" = some s → parseInt s = some 0 →
      (queryParams searchParams).page = 1) ∧
    (∀ s n, searchParams.get "page" = some s → parseInt s = some n → n ≠ 0 →
      (queryParams searchParams).page = n) ∧
    (queryParams searchParams).page ≠ 0 ∧
    (1 ≤ (queryParams searchParams).page ↔
      ¬ ∃ s n, searchParams.get "page" = some s ∧ parseInt s = some n ∧ n < 0) :=
  parseIntOr_spec (searchParams.get "page") 1 (by decide)

/-- C3, counterexample: the parameter `page=-5` parses to a value below 1 and
is decoded as page -5, not 1. -/
theorem page_default_counterexample :
    parseInt "-5" = some (-5) ∧ (queryParams [("page", "-5")]).page = -5 ∧
    ¬ 1 ≤ (queryParams [("page", "-5")]).page := by
  decide

/-- C4, as the code has it (limit default). The decoded limit is a number that
is neither `NaN` nor zero: it is exactly 10 when the `limit` parameter is
absent, non-numeric or parses to 0, and it is the number `parseInt` returns
otherwise, a negative one included; so it is at least 1 exactly when the
parsed value is not negative. -/
theorem limit_default (searchParams : URLSearchParams) :
    (searchParams.get "limit" = none → (queryParams searchParams).limit = 10) ∧
    (∀ s, searchParams.get "limit" = some s → parseInt s = none →
      (queryParams searchParams).limit = 10) ∧
    (∀ s, searchParams.get "limit" = some s → parseInt s = some 0 →
      (queryParams searchParams).limit = 10) ∧
    (∀ s n, searchParams.get "limit" = some s → parseInt s = some n → n ≠ 0 →
      (queryParams searchParams).limit = n) ∧
    (queryParams searchParams).limit ≠ 0 ∧
    (1 ≤ (queryParams searchParams).limit ↔
      ¬ ∃ s n, searchParams.get "limit" = some s ∧ parseInt s = some n ∧ n < 0) :=
  parseIntOr_spec (searchParams.get "limit") 10 (by decide)

/-- C4, counterexample: the parameter `limit=-3` is non-positive and is
decoded as limit -3, not 10. -/
theorem limit_default_counterexample :
    parseInt "-3" = some (-3) ∧ (queryParams [("limit", "-3")]).limit = -3 ∧
    ¬ 1 ≤ (queryParams [("limit", "-3")]).limit := by
  decide

/-- C5, as the code has it (sort key default). The decoded `sortBy` is
`'date_desc'` when the `sortBy` parameter is absent or empty; every other
value is kept unchanged, whether it is one of the ten recognized keys or
not. -/
theorem sortBy_default (searchParams : URLSearchParams) :
    (searchParams.get "sortBy" = none → (queryParams searchParams).sortBy = "date_desc") ∧
    (searchParams.get "sortBy" = some "" →
      (queryParams searchParams).sortBy = "date_desc") ∧
    (∀ s, searchParams.get "sortBy" = some s → s ≠ "" →
      (queryParams searchParams).sortBy = s) ∧
    (∀ s, s ∈ sortKeys → searchParams.get "sortBy" = some s →
      (queryParams searchParams).sortBy = s) := by
  have hs : (queryParams searchParams).sortBy =
      orDefault (searchParams.get "sortBy") "date_desc" := rfl
  rw [hs]
  refine ⟨?_, ?_, ?_, ?_⟩
  · intro h; rw [h]; rfl
  · intro h; rw [h]; rfl
  · intro s h hne; rw [h]; simp [orDefault, hne]
  · intro s hmem h
    have hne : s ≠ "" := by
      intro h'
      subst h'
      exact absurd hmem (by decide)
    rw [h]; simp [orDefault, hne]

/-- C5, counterexample: the unrecognized key `sortBy=foo` is decoded as
`'foo'`, not as `'date_desc'`. -/
theorem sortBy_default_counterexample :
    "foo" ∉ sortKeys ∧ (queryParams [("sortBy", "foo")]).sortBy = "foo" ∧
    (queryParams [("sortBy", "foo")]).sortBy ≠ "date_desc" := by
  decide

/-- C9 (sort key format). Whatever the current `sortBy` (a string, well-formed
or not, or `null`), for a column field `f` the key `handleSort(f)` passes to
`onSortChange` is `f` followed by `_asc` or `_desc`, one of the ten recognized
keys. -/
theorem handleSort_key_format (sortBy : Option String) (f : String)
    (hf : f ∈ sortFields) :
    ∃ key, handleSort true sortBy f = some key ∧
      (key = f ++ "_asc" ∨ key = f ++ "_desc") ∧ key ∈ sortKeys := by
  have h : handleSort true sortBy f = some (f ++ "_asc") ∨
      handleSort true sortBy f = some (f ++ "_desc") := by
    unfold handleSort
    simp only [Bool.not_true, Bool.false_eq_true, if_false]
    split
    · split
      · left; rw [String.append_assoc]; rfl
      · right; rw [String.append_assoc]; rfl
    · right; rfl
  have hkeys : f ++ "_asc" ∈ sortKeys ∧ f ++ "_desc" ∈ sortKeys := by
    simp only [sortFields, List.mem_cons, List.mem_singleton, List.not_mem_nil,
      or_false] at hf
    rcases hf with h | h | h | h | h <;> subst h <;> decide
  rcases h with h | h
  · exact ⟨_, h, Or.inl rfl, hkeys.1⟩
  · exact ⟨_, h, Or.inr rfl, hkeys.2⟩

/-- Witness for C9: the date header clicked while the key is a malformed
string. -/
theorem handleSort_key_format_witness :
    ∃ key, handleSort true (some "date") "date" = some key ∧
      (key = "date" ++ "_asc" ∨ key = "date" ++ "_desc") ∧ key ∈ sortKeys :=
  handleSort_key_format (some "date") "date" (by decide)

/-- C10, as the code has it (range bounds are passed through). Building the
Filter Request is total, and it keeps every non-empty range bound string
unchanged, numeric or not and whatever the order of minimum and maximum; a
bound is absent only when its parameter is missing or empty. A non-numeric
entry typed into a `RangeSlider` bound yields the slider's own limit, which is
not `NaN` unless that limit is. -/
theorem range_bounds_passthrough (searchParams : URLSearchParams) :
    (∀ s, s ≠ "" →
      (searchParams.get "minAge" = some s → (queryParams searchParams).minAge = some s) ∧
      (searchParams.get "maxAge" = some s → (queryParams searchParams).maxAge = some s) ∧
      (searchParams.get "minAmount" = some s →
        (queryParams searchParams).minAmount = some s) ∧
      (searchParams.get "maxAmount" = some s →
        (queryParams searchParams).maxAmount = some s)) ∧
    ((queryParams searchParams).minAge = none ↔
      searchParams.get "minAge" = none ∨ searchParams.get "minAge" = some "") ∧
    ((queryParams searchParams).maxAge = none ↔
      searchParams.get "maxAge" = none ∨ searchParams.get "maxAge" = some "") ∧
    ((queryParams searchParams).minAmount = none ↔
      searchParams.get "minAmount" = none ∨ searchParams.get "minAmount" = some "") ∧
    ((queryParams searchParams).maxAmount = none ↔
      searchParams.get "maxAmount" = none ∨ searchParams.get "maxAmount" = some "") ∧
    (∀ (limit other : JSAtom) (text : String), parseInt text = none →
      rangeMinChange limit other text = (limit, other) ∧
      rangeMaxChange limit other text = (other, limit)) ∧
    (∀ (limit other : JSAtom) (text : String), limit ≠ .nan →
      (rangeMinChange limit other text).1 ≠ .nan ∧
      (rangeMaxChange limit other text).2 ≠ .nan) := by
  have hkeep : ∀ (x : Option String) (s : String), s ≠ "" → x = some s →
      orUndefined x = some s := by
    intro x s hs hx
    simp [orUndefined, hx, hs]
  have habsent : ∀ x : Option String, orUndefined x = none ↔ x = none ∨ x = some "" := by
    intro x
    cases x with
    | none => simp [orUndefined]
    | some s =>
      by_cases hs : s = ""
      · simp [orUndefined, hs]
      · simp [orUndefined, hs]
  have hnan : ∀ (limit : JSAtom) (text : String), limit ≠ .nan →
      parseIntOrAtom text limit ≠ .nan := by
    intro limit text hl
    unfold parseIntOrAtom
    split
    · exact hl
    · split
      · exact hl
      · simp
  refine ⟨?_, habsent _, habsent _, habsent _, habsent _, ?_, ?_⟩
  · intro s hs
    exact ⟨hkeep _ s hs, hkeep _ s hs, hkeep _ s hs, hkeep _ s hs⟩
  · intro limit other text hp
    simp [rangeMinChange, rangeMaxChange, parseIntOrAtom, hp]
  · intro limit other text hl
    exact ⟨hnan limit text hl, hnan limit text hl⟩

/-- C10, counterexample: the non-numeric bound `minAge=abc` stays in the
Filter Request, and so do the bounds of `minAge=50&maxAge=20`, whose minimum
exceeds the maximum. -/
theorem range_bounds_counterexample :
    parseInt "abc" = none ∧
    (queryParams [("minAge", "abc")]).minAge = some "abc" ∧
    parseInt "50" = some 50 ∧ parseInt "20" = some 20 ∧
    (queryParams [("minAge", "50"), ("maxAge", "20")]).minAge = some "50" ∧
    (queryParams [("minAge", "50"), ("maxAge", "20")]).maxAge = some "20" := by
  decide

/-- C2 (keyword predicate). The search query of `checkSetup`, the `$or` of the
case-insensitive expression `new RegExp(testKeyword, 'i')` on `customerName`,
`phone` and `productName` for the keyword `phone`, matches a record if and only
if at least one of the three fields contains the keyword as a substring at some
position, letters compared without regard to case. -/
theorem keyword_search (r : Transaction) :
    (∀ cl ∈ searchQuery, cl.2.source = testKeyword ∧ cl.2.ignoreCase = true) ∧
    ∃ b, matchesOr searchQuery r = some b ∧
      (b = true ↔
        containsIgnoringCase canonicalize testKeyword r.customerName ∨
        containsIgnoringCase canonicalize testKeyword r.phone ∨
        containsIgnoringCase canonicalize testKeyword r.productName) := by
  have hk : ∀ c ∈ testKeyword.data, isSyntaxChar c = false := by decide
  obtain ⟨b1, h1, e1⟩ := regexTest_literal canonicalize testKeyword r.customerName hk
  obtain ⟨b2, h2, e2⟩ := regexTest_literal canonicalize testKeyword r.phone hk
  obtain ⟨b3, h3, e3⟩ := regexTest_literal canonicalize testKeyword r.productName hk
  refine ⟨by decide, b1 || (b2 || (b3 || false)), ?_, ?_⟩
  · have hi : RegExp.ignoreCase { source := testKeyword, flags := "i" } = true := by decide
    simp [matchesOr, searchQuery, RegExp.test, hi, Transaction.field, h1, h2, h3]
  · rw [← e1, ← e2, ← e3]
    simp

/-- The search query of `checkSetup` on three records: the keyword in another
case inside the product name, in capitals inside the customer name, and in no
field. -/
theorem keyword_search_examples :
    matchesOr searchQuery ⟨"Asha Rao", "9876543210", "iPhone 15"⟩ = some true ∧
    matchesOr searchQuery ⟨"PHONE HOUSE LTD", "9876543210", "Desk"⟩ = some true ∧
    matchesOr searchQuery ⟨"Asha Rao", "9876543210", "Laptop"⟩ = some false ∧
    regexTest id testKeyword "iPhone 15" = some false := by
  decide

/-- C11 (top-20 tags). The Tags section offers at most 20 options: exactly the
first `min(20, n)` entries of the supplied list of `n` tags, in the same order;
and the note `Showing top 20 tags` appears if and only if the list has more
than 20 entries. -/
theorem tagOptions_top_twenty (tags : List String) :
    (tagOptions tags).length ≤ 20 ∧
    (tagOptions tags).length = min 20 tags.length ∧
    tagOptions tags = tags.take (min 20 tags.length) ∧
    (∀ i, i < min 20 tags.length → (tagOptions tags)[i]? = tags[i]?) ∧
    (showsTopTagsNote tags = true ↔ 20 < tags.length) := by
  have htake : tagOptions tags = tags.take 20 := by
    simp [tagOptions, jsSlice]
  have hmin : tags.take 20 = tags.take (min 20 tags.length) := by
    by_cases h : 20 ≤ tags.length
    · rw [Nat.min_eq_left h]
    · have h' : tags.length ≤ 20 := by omega
      rw [Nat.min_eq_right h', List.take_of_length_le h', List.take_of_length_le (le_refl _)]
  refine ⟨?_, ?_, ?_, ?_, ?_⟩
  · rw [htake, List.length_take]; omega
  · rw [htake, List.length_take]
  · rw [htake, hmin]
  · intro i hi
    have hi' : i < 20 := by omega
    rw [htake, List.getElem?_take]
    simp [hi']
  · simp [showsTopTagsNote]

/-- C12 (export notification). Every run of `handleExport` calls
`transactionApi.exportCSV` once, with the current decoded Filter Request, and
then raises exactly one toast: the failure toast `Export failed` if and only
if the call throws, the success toast if and only if it returns normally. -/
theorem handleExport_one_toast {ε : Type} (exportCSV : QueryParams → Except ε Unit)
    (searchParams : URLSearchParams) :
    ∃ t, handleExport exportCSV searchParams =
        [.exportCSV (queryParams searchParams), .toast t] ∧
      toastsOf (handleExport exportCSV searchParams) = [t] ∧
      (t = .error "Export failed" ↔
        ∃ e, exportCSV (queryParams searchParams) = .error e) ∧
      (t = .success "Export started - check your downloads" ↔
        ∃ u, exportCSV (queryParams searchParams) = .ok u) := by
  cases h : exportCSV (queryParams searchParams) with
  | ok u =>
    refine ⟨.success "Export started - check your downloads", ?_, ?_, ?_, ?_⟩
    · simp [handleExport, h]
    · simp [handleExport, h, toastsOf]
    · simp
    · simp
  | error e =>
    refine ⟨.error "Export failed", ?_, ?_, ?_, ?_⟩
    · simp [handleExport, h]
    · simp [handleExport, h, toastsOf]
    · simp
    · simp

theorem ceilDiv_least (totalCount limit : Nat) (h : 1 ≤ limit) :
    totalCount ≤ ceilDiv totalCount limit * limit ∧
    ∀ n, totalCount ≤ n * limit → ceilDiv totalCount limit ≤ n := by
  unfold ceilDiv
  constructor
  · have h1 := Nat.div_add_mod (totalCount + limit - 1) limit
    have h2 := Nat.mod_lt (totalCount + limit - 1) (show 0 < limit by omega)
    rw [Nat.mul_comm]
    omega
  · intro n hn
    apply Nat.le_of_lt_succ
    rw [Nat.div_lt_iff_lt_mul (show 0 < limit by omega), Nat.succ_mul]
    omega

/-- C14, as the code has it (page count). For any number of matching records
and any limit, the pagination object the dashboard works with when a response
is available is the one of the response, so its `totalPages` is
`ceil(totalCount / limit)`, the least number of pages of `limit` records that
hold `totalCount` records; and a result with zero records, for a page past the
last one, still carries the same `totalCount` and `totalPages`. -/
theorem pagination_page_count {α : Type} (canon : Char → Char)
    (store : List TransactionRecord) (F : FilterRequest) (page limit : Int)
    (rows : Option (List α)) :
    (paginationOf (some (responseOf rows
        (listPagination canon store F page limit)))).totalPages =
      ceilDiv
        (paginationOf (some (responseOf rows
          (listPagination canon store F page limit)))).totalCount
        (if limit < 1 then 10 else limit.toNat) ∧
    (paginationOf (some (responseOf rows
        (listPagination canon store F page limit)))).totalCount =
      countMatching canon store F ∧
    (countMatching canon store F ≤
        ceilDiv (countMatching canon store F) (if limit < 1 then 10 else limit.toNat) *
          (if limit < 1 then 10 else limit.toNat) ∧
      ∀ n, countMatching canon store F ≤ n * (if limit < 1 then 10 else limit.toNat) →
        ceilDiv (countMatching canon store F) (if limit < 1 then 10 else limit.toNat) ≤ n) ∧
    (∀ later : Int,
      transactionsOf (some (responseOf (some ([] : List α))
        (listPagination canon store F later limit))) = [] ∧
      (paginationOf (some (responseOf (some ([] : List α))
        (listPagination canon store F later limit)))).totalCount =
        (paginationOf (some (responseOf rows
          (listPagination canon store F page limit)))).totalCount ∧
      (paginationOf (some (responseOf (some ([] : List α))
        (listPagination canon store F later limit)))).totalPages =
        (paginationOf (some (responseOf rows
          (listPagination canon store F page limit)))).totalPages) := by
  have hl : 1 ≤ (if limit < 1 then 10 else limit.toNat) := by
    split
    · decide
    · omega
  refine ⟨rfl, rfl, ceilDiv_least _ _ hl, ?_⟩
  intro later
  exact ⟨rfl, rfl, rfl⟩

/-- The page count on the sample store: three matching records with limit 2
make two pages, also in the response for page 5, which has no rows. -/
theorem pagination_page_count_example :
    paginationOf (some (responseOf (some ([] : List TransactionRecord))
        (listPagination canonicalize sampleStore noFilters 5 2))) =
      { page := 5, totalPages := 2, totalCount := 3 } := by
  decide

/-- C14, counterexample: without a response the pagination object has
`totalCount` 0 and `totalPages` 1, while `ceil(0 / 10)` is 0. -/
theorem pagination_default_counterexample :
    (paginationOf (none : Option (TransactionsData Transaction))).totalCount = 0 ∧
    (paginationOf (none : Option (TransactionsData Transaction))).totalPages = 1 ∧
    (paginationOf (none : Option (TransactionsData Transaction))).totalPages ≠
      ceilDiv (paginationOf (none : Option (TransactionsData Transaction))).totalCount 10 := by
  decide

/-- C17 (completed-orders card). Computing the card value is total. It is the
placeholder `—` when `statusBreakdown` is absent or has no entry with status
`Completed`; otherwise it is the formatted count of the first entry whose
status is `Completed`, a count of 0 included (formatting a number never gives
the empty string). -/
theorem completedOrders_card (toLocaleString : Int → String) (stats : StatsData)
    (hfmt : ∀ bd s, stats.statusBreakdown = some bd → s ∈ bd →
      toLocaleString s.count ≠ "") :
    (stats.statusBreakdown = none → completedOrdersValue toLocaleString stats = "—") ∧
    (∀ bd, stats.statusBreakdown = some bd → (∀ s ∈ bd, s.status ≠ "Completed") →
      completedOrdersValue toLocaleString stats = "—") ∧
    (∀ before s after, stats.statusBreakdown = some (before ++ s :: after) →
      (∀ x ∈ before, x.status ≠ "Completed") → s.status = "Completed" →
      completedOrdersValue toLocaleString stats = toLocaleString s.count) := by
  refine ⟨?_, ?_, ?_⟩
  · intro h
    simp [completedOrdersValue, h]
  · intro bd h hno
    have hfind : bd.find? (fun s => s.status == "Completed") = none := by
      rw [List.find?_eq_none]
      intro x hx
      simpa using hno x hx
    simp [completedOrdersValue, h, hfind]
  · intro before s after h hbefore hs
    have key : ∀ pre : List StatusCount, (∀ x ∈ pre, x.status ≠ "Completed") →
        (pre ++ s :: after).find? (fun s => s.status == "Completed") = some s := by
      intro pre
      induction pre with
      | nil =>
        intro _
        simp [List.find?_cons, hs]
      | cons x xs ih =>
        intro hpre
        have hx : (x.status == "Completed") = false := by
          simpa using hpre x (List.mem_cons_self x xs)
        rw [List.cons_append, List.find?_cons, hx]
        exact ih (fun y hy => hpre y (List.mem_cons_of_mem x hy))
    have hfind := key before hbefore
    have hne := hfmt (before ++ s :: after) s h (by simp)
    simp [completedOrdersValue, h, hfind, hne]

/-- Witness for C17: a breakdown whose first `Completed` entry has count 0,
with plain decimal formatting. -/
theorem completedOrders_card_witness :
    completedOrdersValue (fun n => toString n)
      ⟨some 3, some 1500, some [⟨"Pending", 3⟩, ⟨"Completed", 0⟩, ⟨"Completed", 7⟩]⟩ =
        (fun n : Int => toString n) 0 ∧
    (fun n : Int => toString n) 0 = "0" :=
  ⟨(completedOrders_card (fun n => toString n)
      ⟨some 3, some 1500, some [⟨"Pending", 3⟩, ⟨"Completed", 0⟩, ⟨"Completed", 7⟩]⟩
      (by
        intro bd s hbd hs
        simp only [Option.some.injEq] at hbd
        subst hbd
        simp only [List.mem_cons, List.mem_singleton, List.not_mem_nil, or_false] at hs
        rcases hs with h | h | h <;> subst h <;> decide)).2.2
      [⟨"Pending", 3⟩] ⟨"Completed", 0⟩ [⟨"Completed", 7⟩] rfl
      (by decide) rfl,
   by decide⟩

/-- C18 (default request). Decoding a URL without parameters gives the
unconstrained Filter Request: keyword `''`, every membership list empty, every
range bound `undefined`, page 1, limit 10 and sortBy `'date_desc'`; and the
decoded request depends on the URL parameters alone, through the entries of
each name. -/
theorem default_request :
    queryParams [] =
      { page := 1, limit := 10, keyword := "", region := [], gender := [], status := [],
        paymentMethod := [], productCategory := [], tags := [], deliveryType := [],
        minAge := none, maxAge := none, minAmount := none, maxAmount := none,
        startDate := none, endDate := none, sortBy := "date_desc" } ∧
    (∀ sp sp' : URLSearchParams, (∀ k, sp.getAll k = sp'.getAll k) →
      queryParams sp = queryParams sp') := by
  refine ⟨by decide, ?_⟩
  intro sp sp' h
  have hget : ∀ k, sp.get k = sp'.get k := by
    intro k
    rw [URLSearchParams.get_eq_head_getAll, URLSearchParams.get_eq_head_getAll, h k]
  simp only [queryParams, h, hget]

/-- C19, the code at a failing input. With the URL `minAge=18&maxAge=60`, the
age slider reports the range `[25, '60']`; the last object passed to
`onFilterChange` is the current filters with `maxAge` set, built from the
filters of the current render: its `minAge` is still `'18'`, not 25, and so is
the `minAge` of the resulting URL. -/
theorem ageRangeChange_keeps_old_min :
    (FilterPanel.ageRangeChange (panelFilters (queryParams [("minAge", "18"), ("maxAge", "60")]))
        (.atom (.num 25), .atom (.str "60"))).getLast?.map
      (fun o => (o.get "minAge", o.get "maxAge")) =
        some (.atom (.str "18"), .atom (.str "60")) ∧
    (queryParams (afterFilterChanges [("minAge", "18"), ("maxAge", "60")]
      (FilterPanel.ageRangeChange
        (panelFilters (queryParams [("minAge", "18"), ("maxAge", "60")]))
        (.atom (.num 25), .atom (.str "60"))))).minAge = some "18" := by
  decide

/-- C20, the code at a failing input. The user types `abc` at time 0 and
presses the clear button at time 100: `onChange('')` is called at once, but
the debounced call set at time 0 is still pending and reports `abc` at time
300, so the keyword last reported after the clear is `abc` while the input is
empty. -/
theorem clear_then_pending_debounce :
    (searchBarRun (SearchBarState.mount "") [(0, .type "abc"), (100, .clear)] 400).reported =
      [(100, ""), (300, "abc")] ∧
    lastReported
      (searchBarRun (SearchBarState.mount "") [(0, .type "abc"), (100, .clear)] 400) =
      some "abc" ∧
    (searchBarRun (SearchBarState.mount "") [(0, .type "abc"), (100, .clear)] 400).localValue
      = "" := by
  decide

/-! ## Lemmas on the search bar -/

theorem armedAt_first (s : SearchBarState) (t : Nat) (v : String)
    (hs : s.timers = []) (hnow : s.now ≤ t) :
    armedAt (searchBarStep s (t, .type v)) t v s.reported := by
  refine ⟨s.nextId, ?_, ?_, ?_, ?_⟩
  · simp [searchBarStep, SearchBarState.handleChange, SearchBarState.debouncedOnChange,
      SearchBarState.setTimeout, SearchBarState.clearTimeout, SearchBarState.advanceTo, hs,
      Nat.max_eq_right hnow]
  · simp [searchBarStep, SearchBarState.handleChange, SearchBarState.debouncedOnChange,
      SearchBarState.setTimeout, SearchBarState.clearTimeout, SearchBarState.advanceTo]
  · simp [searchBarStep, SearchBarState.handleChange, SearchBarState.debouncedOnChange,
      SearchBarState.setTimeout, SearchBarState.clearTimeout, SearchBarState.advanceTo,
      Nat.max_eq_right hnow]
  · simp [searchBarStep, SearchBarState.handleChange, SearchBarState.debouncedOnChange,
      SearchBarState.setTimeout, SearchBarState.clearTimeout, SearchBarState.advanceTo, hs]

theorem armedAt_step (s : SearchBarState) (t : Nat) (v : String)
    (done : List (Nat × String)) (t' : Nat) (v' : String)
    (h : armedAt s t v done) (h1 : t ≤ t') (h2 : t' < t + debounceDelay) :
    armedAt (searchBarStep s (t', .type v')) t' v' done := by
  obtain ⟨id, htm, hid, hnow, hrep⟩ := h
  have hnd : ¬ t + debounceDelay ≤ t' := by omega
  refine ⟨s.nextId, ?_, ?_, ?_, ?_⟩
  · simp [searchBarStep, SearchBarState.handleChange, SearchBarState.debouncedOnChange,
      SearchBarState.setTimeout, SearchBarState.clearTimeout, SearchBarState.advanceTo,
      htm, hid, hnow, hnd, Nat.max_eq_right h1]
  · simp [searchBarStep, SearchBarState.handleChange, SearchBarState.debouncedOnChange,
      SearchBarState.setTimeout, SearchBarState.clearTimeout, SearchBarState.advanceTo]
  · simp [searchBarStep, SearchBarState.handleChange, SearchBarState.debouncedOnChange,
      SearchBarState.setTimeout, SearchBarState.clearTimeout, SearchBarState.advanceTo,
      hnow, Nat.max_eq_right h1]
  · simp [searchBarStep, SearchBarState.handleChange, SearchBarState.debouncedOnChange,
      SearchBarState.setTimeout, SearchBarState.clearTimeout, SearchBarState.advanceTo,
      htm, hrep, hnd]

theorem armedAt_foldl (rest : List (Nat × String)) (s : SearchBarState) (t : Nat)
    (v : String) (done : List (Nat × String)) (final : Nat × String)
    (h : armedAt s t v done) (hb : isBurst ((t, v) :: rest))
    (hfinal : ((t, v) :: rest).getLast? = some final) :
    armedAt ((typingEvents rest).foldl searchBarStep s) final.1 final.2 done := by
  induction rest generalizing s t v with
  | nil =>
    simp only [List.getLast?_singleton, Option.some.injEq] at hfinal
    subst hfinal
    simpa [typingEvents] using h
  | cons c rest ih =>
    obtain ⟨h1, h2, h3⟩ := hb
    have hstep := armedAt_step s t v done c.1 c.2 h h1 h2
    rw [List.getLast?_cons_cons] at hfinal
    simp only [typingEvents, List.map_cons, List.foldl_cons]
    exact ih _ c.1 c.2 hstep h3 hfinal

theorem armedAt_observe (s : SearchBarState) (t : Nat) (v : String)
    (done : List (Nat × String)) (h : armedAt s t v done) (observedAt : Nat) :
    (t + debounceDelay ≤ observedAt →
      (s.advanceTo observedAt).reported = done ++ [(t + debounceDelay, v)] ∧
      (s.advanceTo observedAt).timers = []) ∧
    (observedAt < t + debounceDelay → (s.advanceTo observedAt).reported = done) := by
  obtain ⟨id, htm, hid, hnow, hrep⟩ := h
  constructor
  · intro hle
    simp [SearchBarState.advanceTo, htm, hrep, hle]
  · intro hlt
    have hnd : ¬ t + debounceDelay ≤ observedAt := by omega
    simp [SearchBarState.advanceTo, htm, hrep, hnd]

/-- While `debouncedOnChange` stays the same function (no render with a new
`onChange` in between), a burst of calls, each less than 300 ms after the
previous one, made on a search bar without a pending timer, leads to exactly
one call of `onChange`, 300 ms after the last call and with its value; before
that moment nothing of the burst has been reported. -/
theorem debounce_burst (s : SearchBarState) (burst : List (Nat × String))
    (first final : Nat × String) (hs : s.timers = [])
    (hfirst : burst.head? = some first) (hnow : s.now ≤ first.1)
    (hb : isBurst burst) (hfinal : burst.getLast? = some final) :
    (∀ observedAt, final.1 + debounceDelay ≤ observedAt →
      (searchBarRun s (typingEvents burst) observedAt).reported =
        s.reported ++ [(final.1 + debounceDelay, final.2)] ∧
      (searchBarRun s (typingEvents burst) observedAt).timers = []) ∧
    (∀ observedAt, observedAt < final.1 + debounceDelay →
      (searchBarRun s (typingEvents burst) observedAt).reported = s.reported) := by
  cases burst with
  | nil => simp at hfirst
  | cons c rest =>
    simp only [List.head?_cons, Option.some.injEq] at hfirst
    subst hfirst
    have h0 := armedAt_first s c.1 c.2 hs hnow
    have hfold := armedAt_foldl rest _ c.1 c.2 s.reported final h0 hb hfinal
    have hrun : ∀ T, searchBarRun s (typingEvents (c :: rest)) T =
        ((typingEvents rest).foldl searchBarStep (searchBarStep s (c.1, .type c.2))).advanceTo T := by
      intro T
      simp [searchBarRun, typingEvents]
    constructor
    · intro T hT
      rw [hrun]
      exact (armedAt_observe _ final.1 final.2 s.reported hfold T).1 hT
    · intro T hT
      rw [hrun]
      exact (armedAt_observe _ final.1 final.2 s.reported hfold T).2 hT

/-- Three keystrokes at times 0, 100 and 250 on a freshly mounted search bar,
without a render of the parent in between. -/
theorem debounce_burst_witness :
    (searchBarRun (SearchBarState.mount "")
        (typingEvents [(0, "a"), (100, "ab"), (250, "abc")]) 1000).reported =
      (SearchBarState.mount "").reported ++ [(250 + debounceDelay, "abc")] :=
  ((debounce_burst (SearchBarState.mount "") [(0, "a"), (100, "ab"), (250, "abc")]
      (0, "a") (250, "abc") rfl rfl (by decide)
      (by simp [isBurst, debounceDelay]) rfl).1 1000 (by decide)).1

/-! ## Lemmas on the predicate of a Filter Request -/

theorem all_keywordConstraint (canon : Char → Char) (k : String) (r : TransactionRecord) :
    (keywordConstraint k).all (fun c => c.holds canon r) = true ↔
      (k ≠ "" →
        containsIgnoringCase canon k r.customerName ∨
        containsIgnoringCase canon k r.phone ∨
        containsIgnoringCase canon k r.productName) := by
  by_cases hk : k = ""
  · simp [keywordConstraint, hk]
  · simp [keywordConstraint, hk, Constraint.holds, or_assoc]

theorem all_memberConstraint (canon : Char → Char) (f : MemberField)
    (accepted : List String) (r : TransactionRecord) :
    (memberConstraint f accepted).all (fun c => c.holds canon r) = true ↔
      (accepted ≠ [] → ∃ v ∈ accepted, r.member f = v) := by
  cases accepted with
  | nil => simp [memberConstraint]
  | cons a as =>
    simp only [memberConstraint, List.isEmpty_cons, Bool.false_eq_true, if_false,
      List.all_cons, List.all_nil, Bool.and_true, Constraint.holds,
      ne_eq, reduceCtorEq, not_false_eq_true, true_implies]
    constructor
    · intro h; exact ⟨_, List.elem_iff.1 h, rfl⟩
    · rintro ⟨v, hv, rfl⟩; exact List.elem_iff.2 hv

theorem all_tagConstraint (canon : Char → Char) (accepted : List String)
    (r : TransactionRecord) :
    (tagConstraint accepted).all (fun c => c.holds canon r) = true ↔
      (accepted ≠ [] → ∃ t ∈ r.tags, ∃ v ∈ accepted, t = v) := by
  cases accepted with
  | nil => simp [tagConstraint]
  | cons a as =>
    simp only [tagConstraint, List.isEmpty_cons, Bool.false_eq_true, if_false,
      List.all_cons, List.all_nil, Bool.and_true, Constraint.holds, List.any_eq_true,
      ne_eq, reduceCtorEq, not_false_eq_true, true_implies]
    constructor
    · rintro ⟨t, ht, h⟩; exact ⟨t, ht, t, List.elem_iff.1 h, rfl⟩
    · rintro ⟨t, ht, v, hv, rfl⟩; exact ⟨t, ht, List.elem_iff.2 hv⟩

theorem all_rangeConstraint (canon : Char → Char) (f : RangeField) (min max : Option Int)
    (r : TransactionRecord) :
    (rangeConstraint f min max).all (fun c => c.holds canon r) = true ↔
      (rangeSupplied min max = true →
        (∀ a, min = some a → a ≤ r.measure f) ∧ (∀ b, max = some b → r.measure f ≤ b)) := by
  by_cases hs : rangeSupplied min max = true
  · cases min <;> cases max <;> simp [rangeConstraint, hs, Constraint.holds]
  · simp [rangeConstraint, hs]

/-- C16 (predicate composition). A record matches a Filter Request if and only
if it satisfies every active constraint: the keyword, when present, occurs in
the customer name, the phone or the product name; for each membership field
with a non-empty list the record's attribute equals one of the listed values,
for tags at least one tag of the record does; and for each supplied range the
record's value lies within the bounds given. -/
theorem predicate_composition (canon : Char → Char) (F : FilterRequest)
    (r : TransactionRecord) :
    matchesRequest canon F r = true ↔
      ((F.keyword ≠ "" →
          containsIgnoringCase canon F.keyword r.customerName ∨
          containsIgnoringCase canon F.keyword r.phone ∨
          containsIgnoringCase canon F.keyword r.productName) ∧
       (F.region ≠ [] → ∃ v ∈ F.region, r.region = v) ∧
       (F.gender ≠ [] → ∃ v ∈ F.gender, r.gender = v) ∧
       (F.status ≠ [] → ∃ v ∈ F.status, r.status = v) ∧
       (F.paymentMethod ≠ [] → ∃ v ∈ F.paymentMethod, r.paymentMethod = v) ∧
       (F.productCategory ≠ [] → ∃ v ∈ F.productCategory, r.productCategory = v) ∧
       (F.deliveryType ≠ [] → ∃ v ∈ F.deliveryType, r.deliveryType = v) ∧
       (F.tags ≠ [] → ∃ t ∈ r.tags, ∃ v ∈ F.tags, t = v) ∧
       (rangeSupplied F.minAge F.maxAge = true →
          (∀ a, F.minAge = some a → a ≤ r.age) ∧ (∀ b, F.maxAge = some b → r.age ≤ b)) ∧
       (rangeSupplied F.minAmount F.maxAmount = true →
          (∀ a, F.minAmount = some a → a ≤ r.finalAmount) ∧
          (∀ b, F.maxAmount = some b → r.finalAmount ≤ b)) ∧
       (rangeSupplied F.startDate F.endDate = true →
          (∀ a, F.startDate = some a → a ≤ r.date) ∧
          (∀ b, F.endDate = some b → r.date ≤ b))) := by
  simp only [matchesRequest, buildQuery, List.all_append, Bool.and_eq_true,
    all_keywordConstraint, all_memberConstraint, all_tagConstraint, all_rangeConstraint,
    TransactionRecord.member, TransactionRecord.measure, and_assoc]

/-- C15 (list and stats consistency). `Dashboard` gives the transactions query
and the stats query the same decoded Filter Request, and for every Filter
Request the number of records the Query Builder predicate matches, reported as
`pagination.totalCount`, equals the Aggregator's `totalTransactions`. The
reading of the request by the backend is a parameter. -/
theorem list_stats_consistent (canon : Char → Char) (store : List TransactionRecord)
    (readRequest : QueryParams → FilterRequest) (searchParams : URLSearchParams) :
    transactionsRequest searchParams = statsRequest searchParams ∧
    (∀ (F : FilterRequest) (page limit : Int),
      (listPagination canon store F page limit).totalCount = countMatching canon store F ∧
      countMatching canon store F = (aggregate canon store F).totalTransactions) ∧
    (∀ page limit : Int,
      (listPagination canon store (readRequest (transactionsRequest searchParams))
          page limit).totalCount =
        (aggregate canon store (readRequest (statsRequest searchParams))).totalTransactions) := by
  refine ⟨rfl, ?_, ?_⟩
  · intro F page limit
    exact ⟨rfl, rfl⟩
  · intro page limit
    rfl

/-! ## Lemmas on clearing and removing filters -/

theorem getAll_updateParams_of_not_mem (sp : URLSearchParams) (us : JSObj) (k : String)
    (hk : k ∉ us.keys) (hpage : k ≠ "page") :
    (updateParams sp us).getAll k = sp.getAll k := by
  unfold updateParams
  by_cases hp : us.hasKey "page" = true
  · simp only [hp, Bool.not_true, Bool.false_eq_true, if_false]
    exact getAll_foldl_of_not_mem us sp k hk
  · have hp' : us.hasKey "page" = false := by
      cases hb : us.hasKey "page"
      · rfl
      · exact absurd hb hp
    simp only [hp', Bool.not_false, if_true]
    rw [URLSearchParams.getAll_set, if_neg hpage]
    exact getAll_foldl_of_not_mem us sp k hk

/-- C21 (clear all frame). For every current URL parameter set, `Clear all`
(the panel emits `{}`, the dashboard applies `handleFilterChange` and
`updateParams`) leaves no entry under any of the thirteen filter keys, sets
the page to `'1'`, and leaves every other parameter, `keyword`, `sortBy` and
`limit` among them, with exactly the entries it had before. -/
theorem clear_all_frame (searchParams : URLSearchParams) :
    (∀ k ∈ filterKeys,
      (handleFilterChange searchParams FilterPanel.handleClearAll).getAll k = []) ∧
    (handleFilterChange searchParams FilterPanel.handleClearAll).getAll "page" = ["1"] ∧
    (handleFilterChange searchParams FilterPanel.handleClearAll).get "page" = some "1" ∧
    (∀ k, k ∉ filterKeys → k ≠ "page" →
      (handleFilterChange searchParams FilterPanel.handleClearAll).getAll k =
        searchParams.getAll k) ∧
    (∀ k ∈ ["keyword", "sortBy", "limit"],
      (handleFilterChange searchParams FilterPanel.handleClearAll).getAll k =
        searchParams.getAll k) := by
  have hkeys : (filterUpdates FilterPanel.handleClearAll).keys = filterKeys := by decide
  have hnd := filterUpdates_keys_nodup FilterPanel.handleClearAll
  have hempty : ∀ e ∈ filterUpdates FilterPanel.handleClearAll, encodeValue e.2 = [] := by
    decide
  have hpage : (handleFilterChange searchParams FilterPanel.handleClearAll).getAll "page"
      = ["1"] :=
    getAll_page_of_no_page_key searchParams _ (by decide)
  have hother : ∀ k, k ∉ filterKeys → k ≠ "page" →
      (handleFilterChange searchParams FilterPanel.handleClearAll).getAll k =
        searchParams.getAll k := by
    intro k hk hp
    exact getAll_updateParams_of_not_mem searchParams _ k (by rw [hkeys]; exact hk) hp
  refine ⟨?_, hpage, ?_, hother, ?_⟩
  · intro k hk
    rw [← hkeys] at hk
    obtain ⟨e, he, hek⟩ := List.mem_map.1 hk
    have hmem : (k, e.2) ∈ filterUpdates FilterPanel.handleClearAll := by
      rw [← hek]; exact he
    unfold handleFilterChange
    rw [getAll_updateParams_of_mem searchParams _ k e.2 hnd hmem]
    exact hempty e he
  · rw [URLSearchParams.get_eq_head_getAll, hpage]
    rfl
  · intro k hk
    simp only [List.mem_cons, List.mem_singleton, List.not_mem_nil, or_false] at hk
    rcases hk with h | h | h <;> subst h <;> exact hother _ (by decide) (by decide)

/-- C24 (sort toggle). For a column field `f` and a direction `d`, clicking
the header of `f` while the sort key is `f_d` emits `f` with the opposite
direction, so clicking it twice restores `f_d`; clicking the header of another
field `g` emits `g_desc`. -/
theorem handleSort_toggle (f g d : String) (hf : f ∈ sortFields) (hg : g ∈ sortFields)
    (hd : d ∈ sortDirections) :
    handleSort true (some (f ++ "_" ++ d)) f = some (f ++ "_" ++ oppositeDirection d) ∧
    oppositeDirection d ∈ sortDirections ∧ oppositeDirection d ≠ d ∧
    handleSort true (some (f ++ "_" ++ oppositeDirection d)) f = some (f ++ "_" ++ d) ∧
    (g ≠ f → handleSort true (some (f ++ "_" ++ d)) g = some (g ++ "_desc")) := by
  have key : ∀ f ∈ sortFields, ∀ g ∈ sortFields, ∀ d ∈ sortDirections,
      handleSort true (some (f ++ "_" ++ d)) f = some (f ++ "_" ++ oppositeDirection d) ∧
      oppositeDirection d ∈ sortDirections ∧ oppositeDirection d ≠ d ∧
      handleSort true (some (f ++ "_" ++ oppositeDirection d)) f = some (f ++ "_" ++ d) ∧
      (g ≠ f → handleSort true (some (f ++ "_" ++ d)) g = some (g ++ "_desc")) := by
    decide
  exact key f hf g hg d hd

/-- Witness for C24: the amount header clicked on `amount_asc`, and the id
header clicked on the same key. -/
theorem handleSort_toggle_witness :
    handleSort true (some ("amount" ++ "_" ++ "asc")) "amount" =
      some ("amount" ++ "_" ++ oppositeDirection "asc") ∧
    handleSort true (some ("amount" ++ "_" ++ "asc")) "id" = some ("id" ++ "_desc") :=
  ⟨(handleSort_toggle "amount" "id" "asc" (by decide) (by decide) (by decide)).1,
   (handleSort_toggle "amount" "id" "asc" (by decide) (by decide) (by decide)).2.2.2.2
     (by decide)⟩

/-- C25 (sort indicator agrees with sort logic). For a sort key `g_d` and a
column field `f`, `SortIcon` shows an active indicator if and only if `f` is
the field `handleSort` extracts from the key (`sortBy.split('_')[0]`), that
is if and only if `f = g`; and the active indicator is the down chevron if and
only if `d` is `desc`, the up chevron otherwise. -/
theorem sortIcon_agrees (f g d : String) (hf : f ∈ sortFields) (hg : g ∈ sortFields)
    (hd : d ∈ sortDirections) :
    (SortIcon f (some (g ++ "_" ++ d)) ≠ .arrowUpDown ↔
      (jsSplit (g ++ "_" ++ d) '_')[0]? = some f) ∧
    ((jsSplit (g ++ "_" ++ d) '_')[0]? = some f ↔ f = g) ∧
    (SortIcon g (some (g ++ "_" ++ d)) = .chevronDown ↔ d = "desc") ∧
    (SortIcon g (some (g ++ "_" ++ d)) = .chevronUp ↔ d = "asc") ∧
    (SortIcon f (some (g ++ "_" ++ d)) = .chevronDown ↔ f = g ∧ d = "desc") := by
  have key : ∀ f ∈ sortFields, ∀ g ∈ sortFields, ∀ d ∈ sortDirections,
      (SortIcon f (some (g ++ "_" ++ d)) ≠ .arrowUpDown ↔
        (jsSplit (g ++ "_" ++ d) '_')[0]? = some f) ∧
      ((jsSplit (g ++ "_" ++ d) '_')[0]? = some f ↔ f = g) ∧
      (SortIcon g (some (g ++ "_" ++ d)) = .chevronDown ↔ d = "desc") ∧
      (SortIcon g (some (g ++ "_" ++ d)) = .chevronUp ↔ d = "asc") ∧
      (SortIcon f (some (g ++ "_" ++ d)) = .chevronDown ↔ f = g ∧ d = "desc") := by
    decide
  exact key f hf g hg d hd

/-- Witness for C25: the date column and the id column under the key
`date_desc`. -/
theorem sortIcon_agrees_witness :
    (SortIcon "date" (some ("date" ++ "_" ++ "desc")) = .chevronDown ↔ "desc" = "desc") ∧
    (SortIcon "id" (some ("date" ++ "_" ++ "desc")) ≠ .arrowUpDown ↔
      (jsSplit ("date" ++ "_" ++ "desc") '_')[0]? = some "id") :=
  ⟨(sortIcon_agrees "date" "date" "desc" (by decide) (by decide) (by decide)).2.2.1,
   (sortIcon_agrees "id" "date" "desc" (by decide) (by decide) (by decide)).1⟩

theorem JSObj.get_of_mem (o : JSObj) (k : String) (v : JSVal) (hnd : o.keys.Nodup)
    (h : (k, v) ∈ o) : o.get k = v := by
  induction o with
  | nil => simp at h
  | cons e rest ih =>
    have hnd' : (e.1 :: JSObj.keys rest).Nodup := hnd
    rw [List.nodup_cons] at hnd'
    rcases List.mem_cons.1 h with h' | h'
    · subst h'
      simp [JSObj.get, List.find?_cons]
    · have hne : ¬ e.1 = k := by
        intro hk
        apply hnd'.1
        rw [hk]
        exact List.mem_map.2 ⟨(k, v), h', rfl⟩
      have hb : (e.1 == k) = false := by simp [hne]
      have := ih hnd'.2 h'
      simpa [JSObj.get, List.find?_cons, hb] using this

theorem chipsOfEntry_arr (k : String) (xs : List JSAtom) :
    chipsOfEntry (k, .arr xs) = xs.map (fun v => (k, v)) := by
  cases xs with
  | nil => rfl
  | cons x xs => simp [chipsOfEntry]

theorem chipsOfEntry_key (e : String × JSVal) (c : String × JSAtom)
    (h : c ∈ chipsOfEntry e) : c.1 = e.1 := by
  obtain ⟨k, v⟩ := e
  cases v with
  | arr xs =>
    rw [chipsOfEntry_arr] at h
    obtain ⟨x, _, hx⟩ := List.mem_map.1 h
    rw [← hx]
  | atom a =>
    by_cases ha : a.truthy = true
    · simp [chipsOfEntry, ha] at h
      rw [h]
    · simp [chipsOfEntry, ha] at h

theorem mem_activeFilters (o : JSObj) (c : String × JSAtom) :
    c ∈ activeFilters o ↔ ∃ e ∈ o, c ∈ chipsOfEntry e := by
  induction o with
  | nil => simp [activeFilters]
  | cons e rest ih => simp [activeFilters, ih]

theorem activeFilters_replace (o : JSObj) (k : String) (v : JSVal)
    (keep : String × JSAtom → Bool)
    (h1 : ∀ e ∈ o, e.1 = k → chipsOfEntry (k, v) = (chipsOfEntry e).filter keep)
    (h2 : ∀ c : String × JSAtom, c.1 ≠ k → keep c = true) :
    activeFilters (o.map (fun e => if e.1 == k then (k, v) else e)) =
      (activeFilters o).filter keep := by
  induction o with
  | nil => rfl
  | cons e rest ih =>
    have ih' := ih (fun e' he' => h1 e' (List.mem_cons_of_mem e he'))
    simp only [List.map_cons, activeFilters, List.filter_append, ih']
    by_cases hk : e.1 = k
    · have hb : (e.1 == k) = true := by simp [hk]
      rw [hb, if_pos rfl, h1 e (List.mem_cons_self e rest) hk]
    · have hb : (e.1 == k) = false := by simp [hk]
      have hself : (chipsOfEntry e).filter keep = chipsOfEntry e := by
        apply List.filter_eq_self.2
        intro c hc
        exact h2 c (by rw [chipsOfEntry_key e c hc]; exact hk)
      simp only [hb, Bool.false_eq_true, if_false, hself]

/-- C22 (removing an active-filter chip). For a filters object and a chip
`(key, value)` that `ActiveFilters` lists for it, the chips of the object
emitted by `handleRemoveFilter(key, value)` are the chips of the original
object without those of that key whose value is strictly equal to `value`, in
the same order; for a value other than `NaN` these are exactly the chips
different from `(key, value)`, so the removed chip is gone, every other chip
stays in place and no chip is new. -/
theorem remove_chip (filters : JSObj) (key : String) (value : JSAtom)
    (hkeys : filters.keys.Nodup) (hchip : (key, value) ∈ activeFilters filters) :
    activeFilters (FilterPanel.handleRemoveFilter filters key value) =
      (activeFilters filters).filter (fun c => !(c.1 == key && c.2.strictEq value)) ∧
    (value ≠ .nan →
      activeFilters (FilterPanel.handleRemoveFilter filters key value) =
        (activeFilters filters).filter (fun c => c != (key, value)) ∧
      (key, value) ∉ activeFilters (FilterPanel.handleRemoveFilter filters key value) ∧
      (∀ c, c ∈ activeFilters (FilterPanel.handleRemoveFilter filters key value) →
        c ∈ activeFilters filters)) := by
  obtain ⟨e, he, hce⟩ := (mem_activeFilters filters (key, value)).1 hchip
  have hek : e.1 = key := (chipsOfEntry_key e (key, value) hce).symm
  obtain ⟨k, v⟩ := e
  simp only at hek
  subst hek
  have hget : filters.get k = v := JSObj.get_of_mem filters k v hkeys he
  have hhas : filters.hasKey k = true := by
    rw [hasKey_iff_mem_keys]
    exact List.mem_map.2 ⟨(k, v), he, rfl⟩
  have hval : ∀ e' ∈ filters, e'.1 = k → e' = (k, v) := by
    intro e' he' hk'
    have := JSObj.get_of_mem filters e'.1 e'.2 hkeys he'
    rw [hk', hget] at this
    exact Prod.ext hk' this.symm
  have h2 : ∀ c : String × JSAtom, c.1 ≠ k →
      (!(c.1 == k && c.2.strictEq value)) = true := by
    intro c hc
    simp [hc]
  have hmain : activeFilters (FilterPanel.handleRemoveFilter filters k value) =
      (activeFilters filters).filter (fun c => !(c.1 == k && c.2.strictEq value)) := by
    cases v with
    | arr xs =>
      simp only [FilterPanel.handleRemoveFilter, hget, FilterPanel.handleFilterChange,
        JSObj.assign, hhas, if_true]
      apply activeFilters_replace
      · intro e' he' hk'
        rw [hval e' he' hk', chipsOfEntry_arr, chipsOfEntry_arr, List.filter_map]
        congr 1
        apply List.filter_congr
        intro x _
        simp
      · exact h2
    | atom a =>
      have hta : a.truthy = true ∧ value = a := by
        by_cases ha : a.truthy = true
        · simp [chipsOfEntry, ha] at hce
          exact ⟨ha, hce⟩
        · simp [chipsOfEntry, ha] at hce
      have hnan : a ≠ .nan := by
        intro h
        rw [h] at hta
        exact absurd hta.1 (by decide)
      simp only [FilterPanel.handleRemoveFilter, hget, FilterPanel.handleFilterChange,
        JSObj.assign, hhas, if_true]
      apply activeFilters_replace
      · intro e' he' hk'
        rw [hval e' he' hk']
        simp [chipsOfEntry, hta.1, hta.2, JSAtom.truthy, JSAtom.strictEq, hnan]
      · exact h2
  refine ⟨hmain, ?_⟩
  intro hnan
  have hcongr : (activeFilters filters).filter (fun c => !(c.1 == k && c.2.strictEq value)) =
      (activeFilters filters).filter (fun c => c != (k, value)) := by
    apply List.filter_congr
    intro c _
    obtain ⟨c1, c2⟩ := c
    by_cases h1 : c1 = k
    · by_cases h2' : c2 = value
      · subst h1; subst h2'
        simp [JSAtom.strictEq, hnan]
      · have hb : (c2 == value) = false := beq_false_of_ne h2'
        have hp : ((c1, c2) == (k, value)) = false :=
          beq_false_of_ne (fun h => h2' (Prod.mk.inj h).2)
        simp only [JSAtom.strictEq, bne, hb, hp, Bool.false_and, Bool.and_false,
          Bool.not_false]
    · have hb : (c1 == k) = false := beq_false_of_ne h1
      have hp : ((c1, c2) == (k, value)) = false :=
        beq_false_of_ne (fun h => h1 (Prod.mk.inj h).1)
      simp only [bne, hb, hp, Bool.false_and, Bool.not_false]
  rw [hmain, hcongr]
  refine ⟨rfl, ?_, ?_⟩
  · intro h
    have := (List.mem_filter.1 h).2
    simp at this
  · intro c hc
    exact (List.mem_filter.1 hc).1

/-- Witness for C22: removing the chip of the region `North` from filters
with two regions and a minimum age. -/
theorem remove_chip_witness :
    activeFilters (FilterPanel.handleRemoveFilter
        [("region", .arr [.str "North", .str "South"]), ("minAge", .atom (.str "25"))]
        "region" (.str "North")) =
      (activeFilters
        [("region", .arr [.str "North", .str "South"]), ("minAge", .atom (.str "25"))]).filter
        (fun c => c != ("region", .str "North")) :=
  ((remove_chip
      [("region", .arr [.str "North", .str "South"]), ("minAge", .atom (.str "25"))]
      "region" (.str "North") (by decide) (by decide)).2 (by decide)).1

theorem any_sameValueZero_iff (selected : List JSAtom) (v : JSAtom) :
    selected.any (fun x => x.sameValueZero v) = true ↔ v ∈ selected := by
  simp only [List.any_eq_true, JSAtom.sameValueZero, beq_iff_eq]
  constructor
  · rintro ⟨x, hx, rfl⟩; exact hx
  · intro h; exact ⟨v, h, rfl⟩

theorem filter_not_strictEq (selected : List JSAtom) (v : JSAtom) (hv : v ≠ .nan) :
    selected.filter (fun x => !x.strictEq v) = selected.filter (fun x => x != v) := by
  apply List.filter_congr
  intro x _
  by_cases h : x = v
  · subst h; simp [JSAtom.strictEq, hv]
  · have hb : (x == v) = false := beq_false_of_ne h
    simp only [JSAtom.strictEq, bne, hb, Bool.false_and, Bool.not_false]

/-- C23 (checkbox toggle). For a selected list and a value `v` other than
`NaN`, `handleToggle(v)` emits a list in which `v` is present if and only if it
was absent before, and in which the values other than `v` are the same, with
the same occurrences and in the same order; toggling `v` twice on a list that
does not contain `v` gives back the original list. -/
theorem handleToggle_toggles (selected : List JSAtom) (v : JSAtom) (hv : v ≠ .nan) :
    (v ∈ CheckboxGroup.handleToggle selected v ↔ v ∉ selected) ∧
    (CheckboxGroup.handleToggle selected v).filter (fun x => x != v) =
      selected.filter (fun x => x != v) ∧
    (∀ w, w ≠ v →
      (CheckboxGroup.handleToggle selected v).count w = selected.count w) ∧
    (v ∉ selected →
      CheckboxGroup.handleToggle (CheckboxGroup.handleToggle selected v) v = selected) := by
  have hrest : (CheckboxGroup.handleToggle selected v).filter (fun x => x != v) =
      selected.filter (fun x => x != v) := by
    by_cases h : v ∈ selected
    · have ha := (any_sameValueZero_iff selected v).2 h
      simp only [CheckboxGroup.handleToggle, ha, if_true, filter_not_strictEq selected v hv,
        List.filter_filter, Bool.and_self]
    · have ha : selected.any (fun x => x.sameValueZero v) = false := by
        cases hb : selected.any (fun x => x.sameValueZero v)
        · rfl
        · exact absurd ((any_sameValueZero_iff selected v).1 hb) h
      simp [CheckboxGroup.handleToggle, ha, List.filter_append]
  refine ⟨?_, hrest, ?_, ?_⟩
  · by_cases h : v ∈ selected
    · have ha := (any_sameValueZero_iff selected v).2 h
      simp [CheckboxGroup.handleToggle, ha, filter_not_strictEq selected v hv, h]
    · have ha : selected.any (fun x => x.sameValueZero v) = false := by
        cases hb : selected.any (fun x => x.sameValueZero v)
        · rfl
        · exact absurd ((any_sameValueZero_iff selected v).1 hb) h
      simp [CheckboxGroup.handleToggle, ha, h]
  · intro w hw
    have hc : ∀ l : List JSAtom, l.count w = (l.filter (fun x => x != v)).count w := by
      intro l
      induction l with
      | nil => rfl
      | cons x xs ih =>
        by_cases hx : x = v
        · subst hx
          have hne : ¬ x = w := fun h => hw h.symm
          simp [List.filter_cons, List.count_cons, hne, ih]
        · simp [List.filter_cons, List.count_cons, hx, ih]
    rw [hc (CheckboxGroup.handleToggle selected v), hc selected, hrest]
  · intro h
    have ha : selected.any (fun x => x.sameValueZero v) = false := by
      cases hb : selected.any (fun x => x.sameValueZero v)
      · rfl
      · exact absurd ((any_sameValueZero_iff selected v).1 hb) h
    have h1 : CheckboxGroup.handleToggle selected v = selected ++ [v] := by
      simp [CheckboxGroup.handleToggle, ha]
    have ha2 : (selected ++ [v]).any (fun x => x.sameValueZero v) = true :=
      (any_sameValueZero_iff _ v).2 (by simp)
    rw [h1]
    simp only [CheckboxGroup.handleToggle, ha2, if_true,
      filter_not_strictEq (selected ++ [v]) v hv, List.filter_append]
    have hself : selected.filter (fun x => x != v) = selected := by
      apply List.filter_eq_self.2
      intro x hx
      have : x ≠ v := fun h' => h (h' ▸ hx)
      simpa using this
    simp [hself]

/-- Witness for C23: toggling `East` on a list that holds it twice. -/
theorem handleToggle_toggles_witness :
    (JSAtom.str "East" ∈ CheckboxGroup.handleToggle
        [.str "East", .str "North", .str "East"] (.str "East") ↔
      JSAtom.str "East" ∉ [JSAtom.str "East", .str "North", .str "East"]) :=
  (handleToggle_toggles [.str "East", .str "North", .str "East"] (.str "East")
    (by decide)).1

/-- C13, the code at a failing input. The user types `a` at time 0,
`Dashboard` renders again at time 50 and hands `SearchBar` a new `onChange`,
and the user types `ab` at time 100, less than 300 ms after the first
keystroke: the debounced function made in the new render has its own
`timeoutId`, the timer of the first keystroke is not cancelled, and `onChange`
is called twice, with `a` at time 300 and with `ab` at time 400. -/
theorem debounce_rerender_reports_twice :
    isBurst [(0, "a"), (100, "ab")] ∧
    (searchBarRun (SearchBarState.mount "")
        [(0, .type "a"), (50, .parentRender), (100, .type "ab")] 1000).reported =
      [(300, "a"), (400, "ab")] ∧
    (searchBarRun (SearchBarState.mount "")
        [(0, .type "a"), (100, .type "ab")] 1000).reported = [(400, "ab")] := by
  refine ⟨?_, by decide, by decide⟩
  simp [isBurst, debounceDelay]

end TruEstate
